import Mathlib

/-!
# A verification development for `stew3254/ratelimit`

A shallow embedding of the Go sources `lib.go` and `ratelimit.go`.

* `time.Duration` and `int` are 64-bit two's-complement integers.  They are
  embedded as `Int`; every arithmetic result is passed through `wrap64`, so
  overflow behaves as it does in Go.
* `time.Time` values are embedded as nanosecond instants (`Int`);
  `Time.Sub` saturates at the ends of the `Duration` range like Go's.  The
  instants the limiter stores and compares all come from `time.Now()`, whose
  monotonic reading is a non-negative `int64` (`IsClock`).
* The mutex `timeLock` is held for the whole of every bookkeeping operation, so
  each operation is one atomic step; the mutex `lock` is the field `locked`.
* A Go call either returns, panics (division by zero, failed type assertion,
  nil dereference) or fails to terminate; `Run` records the first two and a
  loop budget stands for the third.
-/

namespace Ratelimit

/-! ## Machine integers -/

/-- Smallest `int64`. -/
def minInt64 : Int := -9223372036854775808

/-- Largest `int64`. -/
def maxInt64 : Int := 9223372036854775807

/-- Reduction of a mathematical integer to its 64-bit two's-complement value. -/
def wrap64 (x : Int) : Int := (x + 9223372036854775808) % 18446744073709551616 - 9223372036854775808

/-- The value is representable as an `int64`. -/
def IsInt64 (x : Int) : Prop := -9223372036854775808 ≤ x ∧ x ≤ 9223372036854775807

instance (x : Int) : Decidable (IsInt64 x) := by unfold IsInt64; infer_instance

/-- Go's `a / b` on `int64`: quotient truncated toward zero, `none` when `b = 0`
(run-time panic). -/
def goDiv (a b : Int) : Option Int :=
  if b = 0 then none else some (wrap64 (Int.tdiv a b))

/-- Go's `a % b` on `int64`: remainder with the sign of `a`, `none` when `b = 0`
(run-time panic). -/
def goMod (a b : Int) : Option Int :=
  if b = 0 then none else some (wrap64 (Int.tmod a b))

/-- The outcome of running a Go function. -/
inductive Run (α : Type) where
  | done (a : α)
  | panic
  | fuelOut
  deriving Repr, DecidableEq

/-! ## `ratelimit.go`: the limiter record -/

/-- The struct `RateLimiter`.  `locked` is the state of the mutex `lock`;
`timeLock` is held exactly for the duration of one bookkeeping operation, each
of which is one atomic step here. -/
structure RateLimiter where
  locked : Bool
  lastLocked : Int
  Unit : Int
  WaitLimit : Int
  Tokens : Int
  MaxTokens : Int
  deriving Repr, DecidableEq

/-- A value passed in the variadic `states ...interface{}` argument. -/
inductive StateArg where
  | limiter (r : RateLimiter)
  | nilLimiter
  | other
  deriving Repr, DecidableEq

/-- The result pair `(time.Duration, error)`; `none` is the `nil` error. -/
abbrev ChangeResult := Run (Int × Option String)

/-! ## `lib.go` -/

namespace Lib

/-- The helper `max` of `lib.go`. -/
def max (a b : Int) : Int := if a > b then a else b

/-- The helper `min` of `lib.go`. -/
def min (a b : Int) : Int := if a < b then a else b

end Lib

/-- The error text of `LimitChange.Increase` and `LimitChange.Decrease`. -/
def needUnitMsg : String := "need a proper time unit (time.Duration) to be passed in"

namespace LimitChange

/-- The body of `LimitChange.Increase` after `r := states[0].(*RateLimiter)`. -/
def increaseBody (limit : Int) (unit : Int) : ChangeResult :=
  if limit = 0 then
    .done (wrap64 (1 * unit), none)
  else if limit < unit then
    let limit := wrap64 (limit * 2)
    let limit := if limit > unit then unit else limit
    .done (limit, none)
  else
    let limit := wrap64 (limit * 3)
    match goDiv limit 2 with
    | none => .panic
    | some limit =>
      match goDiv unit 1000 with
      | none => .panic
      | some m =>
        match goMod limit m with
        | none => .panic
        | some rem => .done (wrap64 (limit - rem), none)

/-- The method `LimitChange.Increase`. -/
def Increase (limit : Int) (states : List StateArg) : ChangeResult :=
  match states with
  | [] => .done (0, some needUnitMsg)
  | .limiter r :: _ => increaseBody limit r.Unit
  | .nilLimiter :: _ => .panic
  | .other :: _ => .panic

/-- The loop `for limit <= newUnit { newUnit /= 10 }`, run for at most `fuel`
evaluations of its guard; `none` when the budget runs out. -/
def decreaseLoop : Nat → Int → Int → Option Int
  | 0, _, _ => none
  | fuel + 1, limit, newUnit =>
    if limit ≤ newUnit then
      match goDiv newUnit 10 with
      | none => none
      | some q => decreaseLoop fuel limit q
    else some newUnit

/-- The body of `LimitChange.Decrease` after the `limit == 0` test, with `r.Unit`
read from a non-nil limiter. -/
def decreaseBody (fuel : Nat) (limit : Int) (unit : Int) : ChangeResult :=
  if limit > unit then
    let limit := wrap64 (limit - unit)
    let limit := if limit < unit then unit else limit
    .done (limit, none)
  else
    match goDiv unit 10 with
    | none => .panic
    | some newUnit =>
      match decreaseLoop fuel limit newUnit with
      | none => .fuelOut
      | some newUnit =>
        let limit := wrap64 (limit - newUnit)
        let limit := if limit < newUnit then newUnit else limit
        .done (limit, none)

/-- The method `LimitChange.Decrease`; `fuel` bounds the search loop. -/
def Decrease (fuel : Nat) (limit : Int) (states : List StateArg) : ChangeResult :=
  match states with
  | [] => .done (0, some needUnitMsg)
  | .limiter r :: _ =>
    if limit = 0 then .done (limit, none) else decreaseBody fuel limit r.Unit
  | .nilLimiter :: _ =>
    if limit = 0 then .done (limit, none) else .panic
  | .other :: _ => .panic

end LimitChange

/-! ## `ratelimit.go` -/

namespace Time

/-- Go's `Time.Sub` on nanosecond instants: the difference `t - u` as a
`Duration`, replaced by the largest (smallest) `Duration` when it does not fit. -/
def Sub (t u : Int) : Int :=
  if t - u > maxInt64 then maxInt64
  else if t - u < minInt64 then minInt64
  else t - u

end Time

/-- The interface `LimitChanger`: an implementation supplies the two methods,
each a function of the limit and of the `states` it is handed. -/
structure LimitChanger where
  Increase : Int → List StateArg → ChangeResult
  Decrease : Int → List StateArg → ChangeResult

/-- The value `&LimitChange{}` seen through the interface `LimitChanger`. -/
def LimitChange.changer (fuel : Nat) : LimitChanger where
  Increase := LimitChange.Increase
  Decrease := LimitChange.Decrease fuel

/-- The function `NewRateLimiter`; `now` is the reading `time.Now()` returns. -/
def NewRateLimiter (now : Int) (tokens maxTokens : Int) (wait unit : Int) : RateLimiter where
  locked := false
  lastLocked := now
  Unit := unit
  WaitLimit := wait
  Tokens := tokens
  MaxTokens := maxTokens

/-- One bookkeeping pass of the loop of `AcquireWithCost`. -/
inductive Pass where
  | acquired (r : RateLimiter)
  | blocked (r : RateLimiter)
  | retry (r : RateLimiter) (sleep : Int)
  | panic
  deriving Repr, DecidableEq

/-- The outcome of `AcquireWithCost`: it returns holding `lock` (`next` is the
index of the first clock reading it has not used), waits for ever on `lock`,
panics, or is still looping when the budget ends. -/
inductive Acquire where
  | locked (r : RateLimiter) (next : Nat)
  | waiting (r : RateLimiter)
  | panic
  | fuelOut
  deriving Repr, DecidableEq

namespace RateLimiter

/-- The method `updateTokens`; `now` is the reading `time.Now()` returns. -/
def updateTokens (r : RateLimiter) (now : Int) : Run RateLimiter :=
  match goDiv (Time.Sub now r.lastLocked) r.WaitLimit with
  | none => .panic
  | some q =>
    let tokens := Lib.max q 0
    .done { r with Tokens := Lib.min (wrap64 (tokens + r.Tokens)) r.MaxTokens }

/-- The method `Unlock`: releasing a mutex that is not held is a fatal error. -/
def Unlock (r : RateLimiter) : Run RateLimiter :=
  if r.locked then .done { r with locked := false } else .panic

/-- The method `AddTokens`. -/
def AddTokens (r : RateLimiter) (tokens : Int) : RateLimiter :=
  { r with Tokens := Lib.min r.MaxTokens (wrap64 (r.Tokens + tokens)) }

/-- The body of the `for` loop of `AcquireWithCost`, executed once.  `t1` and
`t2` are the two successive readings of `time.Now()` the pass makes. -/
def acquirePass (r : RateLimiter) (tokens : Int) (t1 t2 : Int) : Pass :=
  if r.Tokens ≥ Lib.min (Lib.max tokens 1) r.MaxTokens then
    match updateTokens { r with lastLocked := t1 } t2 with
    | .done r2 =>
      let r3 := { r2 with Tokens := wrap64 (r2.Tokens - tokens) }
      if r3.locked then .blocked r3 else .acquired { r3 with locked := true }
    | _ => .panic
  else
    match updateTokens r t1 with
    | .done r2 => .retry r2 (wrap64 (r2.WaitLimit - Time.Sub t2 r2.lastLocked))
    | _ => .panic

/-- The method `AcquireWithCost`, for at most `fuel` passes.  `clock` lists the
readings of `time.Now()` in the order they are made, `i` is the index of the
next one; a sleep only moves the real clock, which `clock` already describes. -/
def AcquireWithCost : Nat → RateLimiter → Int → (Nat → Int) → Nat → Acquire
  | 0, _, _, _, _ => .fuelOut
  | fuel + 1, r, tokens, clock, i =>
    match acquirePass r tokens (clock i) (clock (i + 1)) with
    | .acquired r2 => .locked r2 (i + 2)
    | .blocked r2 => .waiting r2
    | .retry r2 _ => AcquireWithCost fuel r2 tokens clock (i + 2)
    | .panic => .panic

/-- The method `Lock`. -/
def Lock (fuel : Nat) (r : RateLimiter) (clock : Nat → Int) (i : Nat) : Acquire :=
  AcquireWithCost fuel r 1 clock i

/-- The method `SetLimit`. -/
def SetLimit (r : RateLimiter) (limit : Int) : RateLimiter :=
  { r with WaitLimit := limit }

/-- The method `IncreaseLimit`; an error is written to the log and dropped. -/
def IncreaseLimit (r : RateLimiter) (changer : LimitChanger) : Run RateLimiter :=
  match changer.Increase r.WaitLimit [.limiter r] with
  | .done (limit, none) => .done { r with WaitLimit := limit }
  | .done (_, some _) => .done r
  | .panic => .panic
  | .fuelOut => .fuelOut

/-- The method `DecreaseLimit`; an error is written to the log and dropped. -/
def DecreaseLimit (r : RateLimiter) (changer : LimitChanger) : Run RateLimiter :=
  match changer.Decrease r.WaitLimit [.limiter r] with
  | .done (limit, none) => .done { r with WaitLimit := limit }
  | .done (_, some _) => .done r
  | .panic => .panic
  | .fuelOut => .fuelOut

/-- The method `Increase`. -/
def Increase (fuel : Nat) (r : RateLimiter) : Run RateLimiter :=
  r.IncreaseLimit (LimitChange.changer fuel)

/-- The method `Decrease`. -/
def Decrease (fuel : Nat) (r : RateLimiter) : Run RateLimiter :=
  r.DecreaseLimit (LimitChange.changer fuel)

end RateLimiter

/-- A reading of the monotonic clock that `time.Now()` carries: nanoseconds
since the start of the process, a non-negative `int64`. -/
def IsClock (t : Int) : Prop := 0 ≤ t ∧ t ≤ 9223372036854775807

instance (t : Int) : Decidable (IsClock t) := by unfold IsClock; infer_instance

/-! ## Sequential runs -/

/-- One operation on a limiter, with the clock readings it makes. -/
inductive Op where
  | acquire (cost : Int) (t1 t2 : Int)
  | addTokens (n : Int)
  | setLimit (d : Int)
  | increaseLimit (c : LimitChanger)
  | decreaseLimit (c : LimitChanger)
  | unlock

/-- The state an operation leaves; `none` when it does not complete (it
panics, diverges, or waits on `lock` with nobody left to release it). -/
def Op.run (r : RateLimiter) : Op → Option RateLimiter
  | .acquire cost t1 t2 =>
    match r.acquirePass cost t1 t2 with
    | .acquired r2 => some r2
    | .retry r2 _ => some r2
    | .blocked _ => none
    | .panic => none
  | .addTokens n => some (r.AddTokens n)
  | .setLimit d => some (r.SetLimit d)
  | .increaseLimit c =>
    match r.IncreaseLimit c with
    | .done r2 => some r2
    | _ => none
  | .decreaseLimit c =>
    match r.DecreaseLimit c with
    | .done r2 => some r2
    | _ => none
  | .unlock =>
    match r.Unlock with
    | .done r2 => some r2
    | _ => none

/-- The state after a sequence of operations, `none` when one of them does not
complete. -/
def runOps : RateLimiter → List Op → Option RateLimiter
  | r, [] => some r
  | r, op :: ops =>
    match op.run r with
    | none => none
    | some r2 => runOps r2 ops

/-- The side condition on one operation: a bookkeeping pass has a cost `≥ 0`
and, where the token check passes, its deduction `Tokens - cost` does not fall
below the smallest `int`. -/
def Op.inRange (r : RateLimiter) : Op → Bool
  | .acquire cost t1 t2 =>
    decide (0 ≤ cost) &&
      if r.Tokens ≥ Lib.min (Lib.max cost 1) r.MaxTokens then
        match RateLimiter.updateTokens { r with lastLocked := t1 } t2 with
        | .done r2 => decide (minInt64 ≤ r2.Tokens - cost)
        | _ => true
      else true
  | _ => true

/-- The side condition `Op.inRange` at every step of a run. -/
def runInRange : RateLimiter → List Op → Bool
  | _, [] => true
  | r, op :: ops =>
    op.inRange r &&
      match op.run r with
      | some r2 => runInRange r2 ops
      | none => true

/-- The loop `for i := 0; i < n; i++ { r.Lock(); ...; r.Unlock() }` of
`TestRateLimiter_AddTokens`, each `Lock` with a budget of `fuel` passes.  The
result is the final state and the index of the next clock reading; `none` when
a `Lock` does not return or an `Unlock` fails. -/
def lockUnlockLoop (fuel : Nat) : Nat → RateLimiter → (Nat → Int) → Nat →
    Option (RateLimiter × Nat)
  | 0, r, _, i => some (r, i)
  | n + 1, r, clock, i =>
    match r.Lock fuel clock i with
    | .locked r2 next =>
      match r2.Unlock with
      | .done r3 => lockUnlockLoop fuel n r3 clock next
      | _ => none
    | _ => none

/-! ## States used as counterexamples -/

/-- A limiter whose bucket holds the largest `int`: wait limit one nanosecond,
`Tokens = MaxTokens = 2^63 - 1`, last locked at instant `0`. -/
def fullBucket : RateLimiter :=
  NewRateLimiter 0 9223372036854775807 9223372036854775807 1 1000000000

/-- A limiter with one token of five and a wait limit of one second. -/
def oneToken : RateLimiter := NewRateLimiter 0 1 5 1000000000 1000000000

/-- A sequential run that exercises every operation: a top-up, two successful
acquisitions with their releases, a new wait limit, the built-in increase and
decrease, and a pass that fails the token check. -/
def sampleRun : List Op :=
  [.addTokens 5, .acquire 1 10 10, .unlock, .acquire 2 20 20, .unlock,
   .setLimit 100000000, .increaseLimit (LimitChange.changer 0),
   .decreaseLimit (LimitChange.changer 5), .acquire 7 30 40]

/-- A changer whose methods drop the context they are handed and call the
built-in policy with no state, so both return the missing-unit error. -/
def forgetful : LimitChanger where
  Increase := fun limit _ => LimitChange.Increase limit []
  Decrease := fun limit _ => LimitChange.Decrease 0 limit []

/-- The limiter of `TestRateLimiter_AddTokens` when its loop starts: built empty
with capacity ten, wait limit set to 100ms, five tokens added. -/
def toppedUp : RateLimiter :=
  ((NewRateLimiter 0 0 10 3600000000000 1000000000).SetLimit 100000000).AddTokens 5

/-- A clock that advances one nanosecond per reading for the first microsecond
and then stands still. -/
def slowClock (j : Nat) : Int := min (j : Int) 1000

/-- A clock that reads `0` first and `3` ever after. -/
def stepClock (j : Nat) : Int := if j = 0 then 0 else 3

/-- A limiter whose bucket was filled beyond its capacity by the constructor:
`2^63 - 1` tokens, capacity five, wait limit one nanosecond. -/
def overfull : RateLimiter := NewRateLimiter 0 9223372036854775807 5 1 1000000000

/-! ## Fixtures of `ratelimit_test.go` -/

/-- The limiter that `TestIncrease` and `TestDecrease` build, `Unit` one second,
with `WaitLimit` set to `w`. -/
def testLimiter (w : Int) : RateLimiter :=
  { NewRateLimiter 0 1 10 1000000000 1000000000 with WaitLimit := w }

/-! ## Arithmetic facts shared by the proofs -/

theorem wrap64_eq_self {x : Int} (h : IsInt64 x) : wrap64 x = x := by
  unfold IsInt64 at h
  unfold wrap64
  omega

theorem isInt64_wrap64 (x : Int) : IsInt64 (wrap64 x) := by
  unfold IsInt64 wrap64
  omega

theorem tdiv_of_nonneg {a b : Int} (ha : 0 ≤ a) (hb : 0 ≤ b) : Int.tdiv a b = a / b :=
  Int.tdiv_eq_ediv ha hb

theorem tmod_of_nonneg_left (a b : Int) (ha : 0 ≤ a) : Int.tmod a b = a % b := by
  rcases Int.le_total 0 b with hb | hb
  · exact Int.tmod_eq_emod ha hb
  · have h1 : Int.tmod a b = Int.tmod a (-b) := by rw [Int.tmod_neg]
    have h2 : a % b = a % (-b) := by rw [Int.emod_neg]
    rw [h1, h2]
    exact Int.tmod_eq_emod ha (by omega)

theorem tdiv_thousand_bounds (u : Int) (hu : IsInt64 u) :
    IsInt64 (Int.tdiv u 1000) := by
  unfold IsInt64 at *
  rcases Int.le_total 0 u with h | h
  · rw [tdiv_of_nonneg h (by decide)]; omega
  · have : Int.tdiv u 1000 = -((-u) / 1000) := by
      have := Int.neg_tdiv (-u) 1000
      rw [Int.neg_neg] at this
      rw [this, tdiv_of_nonneg (by omega) (by decide)]
    rw [this]; omega

theorem goDiv_of_ne (a : Int) {b : Int} (hb : b ≠ 0) :
    goDiv a b = some (wrap64 (Int.tdiv a b)) := if_neg hb

theorem goMod_of_ne (a : Int) {b : Int} (hb : b ≠ 0) :
    goMod a b = some (wrap64 (Int.tmod a b)) := if_neg hb

theorem emod_le_of_nonneg (a b : Int) (ha : 0 ≤ a) : a % b ≤ a := by
  rcases eq_or_ne b 0 with rfl | hb
  · simp
  · rw [← Int.emod_abs]
    have hpos : 0 < |b| := abs_pos.mpr hb
    have h1 := Int.emod_add_ediv a |b|
    have h2 := Int.ediv_nonneg ha hpos.le
    nlinarith [mul_nonneg hpos.le h2]

/-- For `m ≠ 0`, `t - t % m` is the largest multiple of `m` that is at most `t`. -/
theorem largest_multiple (t m : Int) (hm : m ≠ 0) :
    m ∣ (t - t % m) ∧ t - t % m ≤ t ∧
      ∀ w : Int, m ∣ w → w ≤ t → w ≤ t - t % m := by
  have hnn := Int.emod_nonneg t hm
  have hlt := Int.emod_lt t hm
  refine ⟨Int.dvd_sub_of_emod_eq rfl, by omega, ?_⟩
  intro w hw hwt
  by_contra hcon
  have hd : m ∣ (w - (t - t % m)) := Int.dvd_sub hw (Int.dvd_sub_of_emod_eq rfl)
  have hpos : 0 < w - (t - t % m) := by omega
  have := Int.le_of_dvd hpos ((abs_dvd m _).mpr hd)
  omega

/-! ## `LimitChange.Increase` -/

theorem increase_zero (unit : Int) (hu : IsInt64 unit) :
    LimitChange.increaseBody 0 unit = .done (unit, none) := by
  unfold LimitChange.increaseBody
  rw [if_pos rfl, Int.one_mul, wrap64_eq_self hu]

theorem increase_sub_unit (limit unit : Int) (h0 : 0 < limit)
    (h3 : 3 * limit ≤ maxInt64) (hlt : limit < unit) :
    LimitChange.increaseBody limit unit = .done (min (2 * limit) unit, none) := by
  unfold maxInt64 at h3
  have hne : limit ≠ 0 := by omega
  have hw : wrap64 (limit * 2) = limit * 2 := wrap64_eq_self (by unfold IsInt64; omega)
  simp only [LimitChange.increaseBody, if_neg hne, if_pos hlt, hw]
  by_cases h : limit * 2 > unit
  · rw [if_pos h, min_eq_right (by omega)]
  · rw [if_neg h, min_eq_left (by omega)]
    congr 2
    omega

theorem increase_third_branch (limit unit : Int) (hu : IsInt64 unit)
    (hm : Int.tdiv unit 1000 ≠ 0) (h0 : 0 < limit) (h3 : 3 * limit ≤ maxInt64)
    (hge : ¬ limit < unit) :
    LimitChange.increaseBody limit unit
      = .done (3 * limit / 2 - (3 * limit / 2) % (Int.tdiv unit 1000), none) := by
  have hm64 := tdiv_thousand_bounds unit hu
  have hmabs := Int.emod_lt (3 * limit / 2) hm
  have hmnn := Int.emod_nonneg (3 * limit / 2) hm
  unfold maxInt64 at h3
  unfold IsInt64 at hu hm64
  have hw3 : wrap64 (limit * 3) = limit * 3 := wrap64_eq_self (by unfold IsInt64; omega)
  have hd2 : Int.tdiv (limit * 3) 2 = 3 * limit / 2 := by
    rw [tdiv_of_nonneg (by omega) (by decide)]; congr 1; omega
  have hw2 : wrap64 (3 * limit / 2) = 3 * limit / 2 := wrap64_eq_self (by unfold IsInt64; omega)
  have hwm : wrap64 (Int.tdiv unit 1000) = Int.tdiv unit 1000 := wrap64_eq_self hm64
  have htm : Int.tmod (3 * limit / 2) (Int.tdiv unit 1000)
      = (3 * limit / 2) % (Int.tdiv unit 1000) := tmod_of_nonneg_left _ _ (by omega)
  have habs : |Int.tdiv unit 1000| ≤ 9223372036854775808 := by
    rw [abs_le]; omega
  have hwr : wrap64 ((3 * limit / 2) % (Int.tdiv unit 1000))
      = (3 * limit / 2) % (Int.tdiv unit 1000) := wrap64_eq_self (by unfold IsInt64; omega)
  have hle : (3 * limit / 2) % (Int.tdiv unit 1000) ≤ 3 * limit / 2 :=
    emod_le_of_nonneg _ _ (by omega)
  have hwf : wrap64 (3 * limit / 2 - (3 * limit / 2) % (Int.tdiv unit 1000))
      = 3 * limit / 2 - (3 * limit / 2) % (Int.tdiv unit 1000) :=
    wrap64_eq_self (by unfold IsInt64; omega)
  unfold LimitChange.increaseBody
  have hne : limit ≠ 0 := by omega
  simp only [if_neg hne, if_neg hge, hw3, goDiv_of_ne _ (show (2 : Int) ≠ 0 by decide), hd2, hw2,
    goDiv_of_ne _ (show (1000 : Int) ≠ 0 by decide), hwm, goMod_of_ne _ hm, htm, hwr, hwf]

/-- C1: with a limiter as context whose `Unit` has `Unit/1000 ≠ 0`, and a limit
`≥ 0` with `3*limit` inside `int64`, `LimitChange.Increase` returns with a `nil`
error: `Unit` for limit `0`; `min(2*limit, Unit)` for `0 < limit < Unit`, which
never exceeds `Unit`; otherwise `t - t mod (Unit/1000)` with `t = ⌊3*limit/2⌋`,
and that value is the largest multiple of `Unit/1000` that is at most `t`. -/
theorem C1_Increase_piecewise (r : RateLimiter) (rest : List StateArg) (limit : Int)
    (hu : IsInt64 r.Unit) (hm : Int.tdiv r.Unit 1000 ≠ 0)
    (h0 : 0 ≤ limit) (h3 : 3 * limit ≤ maxInt64) :
    LimitChange.Increase limit (.limiter r :: rest)
        = .done (if limit = 0 then r.Unit
                 else if limit < r.Unit then min (2 * limit) r.Unit
                 else 3 * limit / 2 - (3 * limit / 2) % (Int.tdiv r.Unit 1000), none)
      ∧ (0 < limit → limit < r.Unit → min (2 * limit) r.Unit ≤ r.Unit)
      ∧ (Int.tdiv r.Unit 1000 ∣ 3 * limit / 2 - (3 * limit / 2) % (Int.tdiv r.Unit 1000)
          ∧ 3 * limit / 2 - (3 * limit / 2) % (Int.tdiv r.Unit 1000) ≤ 3 * limit / 2
          ∧ ∀ w : Int, Int.tdiv r.Unit 1000 ∣ w → w ≤ 3 * limit / 2 →
              w ≤ 3 * limit / 2 - (3 * limit / 2) % (Int.tdiv r.Unit 1000)) := by
  refine ⟨?_, fun _ _ => min_le_right _ _, largest_multiple _ _ hm⟩
  show LimitChange.increaseBody limit r.Unit = _
  by_cases hz : limit = 0
  · subst hz
    rw [if_pos rfl]
    exact increase_zero _ hu
  · have hpos : 0 < limit := by omega
    rw [if_neg hz]
    by_cases hlt : limit < r.Unit
    · rw [if_pos hlt]
      exact increase_sub_unit _ _ hpos h3 hlt
    · rw [if_neg hlt]
      exact increase_third_branch _ _ hu hm hpos h3 hlt

/-- C1 at the rows of `increaseTests` (unit one second): 0 → 1s, 1s → 1.5s,
5s → 7.5s, 500ms → 1s, 100ms → 200ms, 300ms → 600ms, 800ms → 1s,
1000.231ms → 1.5s. -/
theorem C1_Increase_piecewise_witness :
    LimitChange.Increase 0 [.limiter (testLimiter 0)] = .done (1000000000, none)
    ∧ LimitChange.Increase 1000000000 [.limiter (testLimiter 1000000000)]
        = .done (1500000000, none)
    ∧ LimitChange.Increase 5000000000 [.limiter (testLimiter 5000000000)]
        = .done (7500000000, none)
    ∧ LimitChange.Increase 500000000 [.limiter (testLimiter 500000000)]
        = .done (1000000000, none)
    ∧ LimitChange.Increase 100000000 [.limiter (testLimiter 100000000)]
        = .done (200000000, none)
    ∧ LimitChange.Increase 300000000 [.limiter (testLimiter 300000000)]
        = .done (600000000, none)
    ∧ LimitChange.Increase 800000000 [.limiter (testLimiter 800000000)]
        = .done (1000000000, none)
    ∧ LimitChange.Increase 1000231000 [.limiter (testLimiter 1000231000)]
        = .done (1500000000, none) :=
  ⟨(C1_Increase_piecewise (testLimiter 0) [] 0
      (by decide) (by decide) (by decide) (by decide)).1.trans (by decide),
   (C1_Increase_piecewise (testLimiter 1000000000) [] 1000000000
      (by decide) (by decide) (by decide) (by decide)).1.trans (by decide),
   (C1_Increase_piecewise (testLimiter 5000000000) [] 5000000000
      (by decide) (by decide) (by decide) (by decide)).1.trans (by decide),
   (C1_Increase_piecewise (testLimiter 500000000) [] 500000000
      (by decide) (by decide) (by decide) (by decide)).1.trans (by decide),
   (C1_Increase_piecewise (testLimiter 100000000) [] 100000000
      (by decide) (by decide) (by decide) (by decide)).1.trans (by decide),
   (C1_Increase_piecewise (testLimiter 300000000) [] 300000000
      (by decide) (by decide) (by decide) (by decide)).1.trans (by decide),
   (C1_Increase_piecewise (testLimiter 800000000) [] 800000000
      (by decide) (by decide) (by decide) (by decide)).1.trans (by decide),
   (C1_Increase_piecewise (testLimiter 1000231000) [] 1000231000
      (by decide) (by decide) (by decide) (by decide)).1.trans (by decide)⟩

/-! ## `LimitChange.Decrease` -/

theorem decrease_zero (fuel : Nat) (r : RateLimiter) (rest : List StateArg) :
    LimitChange.Decrease fuel 0 (.limiter r :: rest) = .done (0, none) := by
  simp [LimitChange.Decrease]

theorem decrease_above_unit (fuel : Nat) (limit unit : Int) (hgt : limit > unit)
    (hfit : IsInt64 (limit - unit)) :
    LimitChange.decreaseBody fuel limit unit = .done (max (limit - unit) unit, none) := by
  simp only [LimitChange.decreaseBody, if_pos hgt, wrap64_eq_self hfit]
  by_cases h : limit - unit < unit
  · rw [if_pos h, max_eq_right (by omega)]
  · rw [if_neg h, max_eq_left (by omega)]

/-- C2: `LimitChange.Decrease(0)` returns `0` for every unit, so a limiter whose
`WaitLimit` is `0` is a fixed point of the built-in `Decrease`; and for
`limit ≠ 0`, `limit > Unit` with `limit - Unit` inside `int64`, the result is
`max(limit - Unit, Unit)`, which is never below `Unit`. -/
theorem C2_Decrease_zero_and_flat (fuel : Nat) (r : RateLimiter) (rest : List StateArg) :
    LimitChange.Decrease fuel 0 (.limiter r :: rest) = .done (0, none)
      ∧ (r.WaitLimit = 0 → r.Decrease fuel = .done r)
      ∧ ∀ limit : Int, limit ≠ 0 → limit > r.Unit → IsInt64 (limit - r.Unit) →
          LimitChange.Decrease fuel limit (.limiter r :: rest)
              = .done (max (limit - r.Unit) r.Unit, none)
            ∧ r.Unit ≤ max (limit - r.Unit) r.Unit := by
  refine ⟨decrease_zero fuel r rest, ?_, ?_⟩
  · intro hw
    simp [RateLimiter.Decrease, RateLimiter.DecreaseLimit, LimitChange.changer,
      LimitChange.Decrease, hw]
    cases r
    simp_all
  · intro limit hne hgt hfit
    refine ⟨?_, le_max_right _ _⟩
    show (if limit = 0 then _ else LimitChange.decreaseBody fuel limit r.Unit) = _
    rw [if_neg hne]
    exact decrease_above_unit fuel limit r.Unit hgt hfit

/-- C2 at the rows of `decreaseTests` (unit one second): 0 → 0, 5s → 4s,
1100ms → 1s. -/
theorem C2_Decrease_zero_and_flat_witness :
    LimitChange.Decrease 0 0 [.limiter (testLimiter 0)] = .done (0, none)
    ∧ LimitChange.Decrease 0 5000000000 [.limiter (testLimiter 5000000000)]
        = .done (4000000000, none)
    ∧ LimitChange.Decrease 0 1100000000 [.limiter (testLimiter 1100000000)]
        = .done (1000000000, none) :=
  ⟨(C2_Decrease_zero_and_flat 0 (testLimiter 0) []).1,
   ((C2_Decrease_zero_and_flat 0 (testLimiter 5000000000) []).2.2 5000000000
      (by decide) (by decide) (by decide)).1.trans (by decide),
   ((C2_Decrease_zero_and_flat 0 (testLimiter 1100000000) []).2.2 1100000000
      (by decide) (by decide) (by decide)).1.trans (by decide)⟩

theorem tdiv_ten_bounds {u : Int} (h0 : 0 ≤ u) (hu : u ≤ maxInt64) :
    0 ≤ Int.tdiv u 10 ∧ Int.tdiv u 10 ≤ u ∧ Int.tdiv u 10 ≤ maxInt64
      ∧ (0 < u → Int.tdiv u 10 < u) := by
  unfold maxInt64 at *
  rw [tdiv_of_nonneg h0 (by decide)]
  omega

theorem tenths_nonneg (j : Nat) : ∀ u : Int, 0 ≤ u →
    0 ≤ (fun x : Int => Int.tdiv x 10)^[j] u := by
  induction j with
  | zero => intro u h; simpa using h
  | succ j ih =>
    intro u h
    rw [Function.iterate_succ_apply]
    exact ih _ (by rw [tdiv_of_nonneg h (by decide)]; omega)

theorem tenths_le (j : Nat) : ∀ u : Int, 0 ≤ u →
    (fun x : Int => Int.tdiv x 10)^[j] u ≤ u := by
  induction j with
  | zero => intro u _; simp
  | succ j ih =>
    intro u h
    rw [Function.iterate_succ_apply]
    have h1 : 0 ≤ Int.tdiv u 10 ∧ Int.tdiv u 10 ≤ u := by
      rw [tdiv_of_nonneg h (by decide)]; omega
    exact le_trans (ih _ h1.1) h1.2

/-- Later candidates are never larger than earlier ones. -/
theorem tenths_antitone (u : Int) (h : 0 ≤ u) {i j : Nat} (hij : i ≤ j) :
    (fun x : Int => Int.tdiv x 10)^[j] u ≤ (fun x : Int => Int.tdiv x 10)^[i] u := by
  obtain ⟨d, rfl⟩ := Nat.exists_eq_add_of_le hij
  rw [Nat.add_comm, Function.iterate_add_apply]
  exact tenths_le d _ (tenths_nonneg i u h)

/-- The candidates reach `0`. -/
theorem tenths_reach_zero : ∀ (n : Nat) (u : Int), 0 ≤ u → u.toNat ≤ n →
    ∃ j, (fun x : Int => Int.tdiv x 10)^[j] u = 0 := by
  intro n
  induction n with
  | zero =>
    intro u h0 hn
    exact ⟨0, by simp; omega⟩
  | succ n ih =>
    intro u h0 hn
    by_cases hz : u = 0
    · exact ⟨0, by simpa using hz⟩
    · have hd : 0 ≤ Int.tdiv u 10 ∧ Int.tdiv u 10 < u := by
        rw [tdiv_of_nonneg h0 (by decide)]; omega
      obtain ⟨j, hj⟩ := ih (Int.tdiv u 10) hd.1 (by omega)
      exact ⟨j + 1, by rw [Function.iterate_succ_apply]; exact hj⟩

/-- The search loop stops at the first candidate below `limit`. -/
theorem decreaseLoop_first (limit : Int) : ∀ (j : Nat) (u : Int) (fuel : Nat),
    0 ≤ u → u ≤ maxInt64 →
    (∀ i, i < j → limit ≤ (fun x : Int => Int.tdiv x 10)^[i] u) →
    (fun x : Int => Int.tdiv x 10)^[j] u < limit → j < fuel →
    LimitChange.decreaseLoop fuel limit u = some ((fun x : Int => Int.tdiv x 10)^[j] u) := by
  intro j
  induction j with
  | zero =>
    intro u fuel _ _ _ hlt hf
    obtain ⟨f, rfl⟩ := Nat.exists_eq_succ_of_ne_zero (by omega : fuel ≠ 0)
    have hlt2 : ¬ limit ≤ u := by simpa using hlt
    simp [LimitChange.decreaseLoop, hlt2]
  | succ j ih =>
    intro u fuel h0 hu hall hlt hf
    obtain ⟨f, rfl⟩ := Nat.exists_eq_succ_of_ne_zero (by omega : fuel ≠ 0)
    have hle : limit ≤ u := by simpa using hall 0 (by omega)
    have hb := tdiv_ten_bounds h0 hu
    have hw : wrap64 (Int.tdiv u 10) = Int.tdiv u 10 :=
      wrap64_eq_self (by unfold IsInt64; unfold maxInt64 at hb; omega)
    rw [LimitChange.decreaseLoop, if_pos hle, goDiv_of_ne _ (show (10 : Int) ≠ 0 by decide), hw]
    rw [Function.iterate_succ_apply] at hlt ⊢
    refine ih (Int.tdiv u 10) f hb.1 hb.2.2.1 ?_ hlt (by omega)
    intro i hi
    have := hall (i + 1) (by omega)
    rwa [Function.iterate_succ_apply] at this

/-- C3: for `Unit > 0` and `0 < limit ≤ Unit`, there is a first candidate
`f = Unit/10/.../10` (`k ≥ 1` integer divisions by ten) strictly below `limit`;
it is the largest candidate strictly below `limit`, and with a loop budget of at
least `k` the call returns `max(limit - f, f)` with a `nil` error. -/
theorem C3_Decrease_fraction (r : RateLimiter) (rest : List StateArg) (limit : Int)
    (hu : IsInt64 r.Unit) (hpos : 0 < r.Unit) (hl0 : 0 < limit) (hle : limit ≤ r.Unit) :
    ∃ k : Nat, 1 ≤ k
      ∧ (fun x : Int => Int.tdiv x 10)^[k] r.Unit < limit
      ∧ (∀ j : Nat, 1 ≤ j → (fun x : Int => Int.tdiv x 10)^[j] r.Unit < limit →
          (fun x : Int => Int.tdiv x 10)^[j] r.Unit ≤ (fun x : Int => Int.tdiv x 10)^[k] r.Unit)
      ∧ ∀ fuel : Nat, k ≤ fuel →
          LimitChange.Decrease fuel limit (.limiter r :: rest)
            = .done (max (limit - (fun x : Int => Int.tdiv x 10)^[k] r.Unit)
                ((fun x : Int => Int.tdiv x 10)^[k] r.Unit), none) := by
  have hu' : r.Unit ≤ maxInt64 := hu.2
  have hex : ∃ j, (fun x : Int => Int.tdiv x 10)^[j + 1] r.Unit < limit := by
    obtain ⟨j, hj⟩ := tenths_reach_zero r.Unit.toNat r.Unit hpos.le le_rfl
    refine ⟨j, ?_⟩
    have := tenths_antitone r.Unit hpos.le (Nat.le_add_right j 1)
    omega
  classical
  let k0 := Nat.find hex
  have hk0 : (fun x : Int => Int.tdiv x 10)^[k0 + 1] r.Unit < limit := Nat.find_spec hex
  have hmin : ∀ i, i < k0 → limit ≤ (fun x : Int => Int.tdiv x 10)^[i + 1] r.Unit := by
    intro i hi
    have := Nat.find_min hex hi
    omega
  refine ⟨k0 + 1, by omega, hk0, ?_, ?_⟩
  · intro j hj hlt
    by_cases hjk : j < k0 + 1
    · cases j with
      | zero => omega
      | succ i =>
        have := hmin i (by omega)
        omega
    · exact tenths_antitone r.Unit hpos.le (by omega)
  · intro fuel hf
    have hne : limit ≠ 0 := by omega
    have hng : ¬ limit > r.Unit := by omega
    have hb := tdiv_ten_bounds hpos.le hu'
    have hw : wrap64 (Int.tdiv r.Unit 10) = Int.tdiv r.Unit 10 :=
      wrap64_eq_self (by unfold IsInt64; unfold maxInt64 at hb; omega)
    have hloop := decreaseLoop_first limit k0 (Int.tdiv r.Unit 10) fuel hb.1 hb.2.2.1
      (by
        intro i hi
        have := hmin i hi
        rwa [Function.iterate_succ_apply] at this)
      (by rwa [Function.iterate_succ_apply] at hk0) (by omega)
    have hfn := tenths_nonneg (k0 + 1) r.Unit hpos.le
    rw [Function.iterate_succ_apply] at hk0 hfn ⊢
    have hfit : wrap64 (limit - (fun x : Int => Int.tdiv x 10)^[k0] (Int.tdiv r.Unit 10))
        = limit - (fun x : Int => Int.tdiv x 10)^[k0] (Int.tdiv r.Unit 10) :=
      wrap64_eq_self (by unfold IsInt64; unfold maxInt64 at hu'; omega)
    simp only [LimitChange.Decrease, if_neg hne, LimitChange.decreaseBody, if_neg hng,
      goDiv_of_ne _ (show (10 : Int) ≠ 0 by decide), hw, hloop, hfit]
    by_cases h : limit - (fun x : Int => Int.tdiv x 10)^[k0] (Int.tdiv r.Unit 10)
        < (fun x : Int => Int.tdiv x 10)^[k0] (Int.tdiv r.Unit 10)
    · rw [if_pos h, max_eq_right (by omega)]
    · rw [if_neg h, max_eq_left (by omega)]

/-- C3 at `limit = 500ms`, `Unit = 1s`, and the rows of `decreaseTests` below one
unit: 1s → 900ms, 500ms → 400ms, 100ms → 90ms, 101ms → 100ms. -/
theorem C3_Decrease_fraction_witness :
    (∃ k : Nat, 1 ≤ k
      ∧ (fun x : Int => Int.tdiv x 10)^[k] 1000000000 < 500000000
      ∧ (∀ j : Nat, 1 ≤ j → (fun x : Int => Int.tdiv x 10)^[j] 1000000000 < 500000000 →
          (fun x : Int => Int.tdiv x 10)^[j] 1000000000
            ≤ (fun x : Int => Int.tdiv x 10)^[k] 1000000000)
      ∧ ∀ fuel : Nat, k ≤ fuel →
          LimitChange.Decrease fuel 500000000 [.limiter (testLimiter 500000000)]
            = .done (max (500000000 - (fun x : Int => Int.tdiv x 10)^[k] 1000000000)
                ((fun x : Int => Int.tdiv x 10)^[k] 1000000000), none))
    ∧ LimitChange.Decrease 1 1000000000 [.limiter (testLimiter 1000000000)]
        = .done (900000000, none)
    ∧ LimitChange.Decrease 1 500000000 [.limiter (testLimiter 500000000)]
        = .done (400000000, none)
    ∧ LimitChange.Decrease 2 100000000 [.limiter (testLimiter 100000000)]
        = .done (90000000, none)
    ∧ LimitChange.Decrease 1 101000000 [.limiter (testLimiter 101000000)]
        = .done (100000000, none) :=
  ⟨C3_Decrease_fraction (testLimiter 500000000) [] 500000000
      (by decide) (by decide) (by decide) (by decide),
    by decide, by decide, by decide, by decide⟩

/-! ## `updateTokens` -/

theorem libMax_eq (a b : Int) : Lib.max a b = max a b := by
  unfold Lib.max
  split <;> omega

theorem libMin_eq (a b : Int) : Lib.min a b = min a b := by
  unfold Lib.min
  split <;> omega

theorem timeSub_of_clock {t u : Int} (ht : IsClock t) (hu : IsClock u) :
    Time.Sub t u = t - u := by
  unfold IsClock at *
  unfold Time.Sub maxInt64 minInt64
  rw [if_neg (by omega), if_neg (by omega)]

theorem natAbs_tdiv_le (a b : Int) : (Int.tdiv a b).natAbs ≤ a.natAbs := by
  rw [Int.natAbs_tdiv]
  exact Nat.div_le_self _ _

/-- Truncation and floor agree once negative quotients are clamped to `0`. -/
theorem max_tdiv_eq_max_floor (e w : Int) (hw : w ≠ 0) :
    max (Int.tdiv e w) 0 = max ⌊(e : ℚ) / (w : ℚ)⌋ 0 := by
  have key : ∀ a b : Int, 0 ≤ a → 0 < b → Int.tdiv a b = ⌊(a : ℚ) / (b : ℚ)⌋ := by
    intro a b ha hb
    rw [tdiv_of_nonneg ha hb.le]
    obtain ⟨n, rfl⟩ := Int.eq_ofNat_of_zero_le hb.le
    exact (Rat.floor_intCast_div_natCast a n).symm
  rcases lt_or_gt_of_ne hw with hneg | hpos
  · rcases le_or_lt e 0 with he | he
    · have h1 := key (-e) (-w) (by omega) (by omega)
      rw [Int.neg_tdiv_neg] at h1
      rw [h1]
      push_cast
      rw [neg_div_neg_eq]
    · have h1 : Int.tdiv e w ≤ 0 := Int.tdiv_nonpos he.le hneg.le
      have h2 : ⌊(e : ℚ) / (w : ℚ)⌋ ≤ 0 := by
        apply Int.floor_nonpos
        apply div_nonpos_of_nonneg_of_nonpos
        · exact_mod_cast he.le
        · exact_mod_cast hneg.le
      rw [max_eq_right h1, max_eq_right h2]
  · rcases le_or_lt 0 e with he | he
    · rw [key e w he hpos]
    · have h0 := Int.tdiv_nonneg (a := -e) (b := w) (by omega) hpos.le
      rw [Int.neg_tdiv] at h0
      have h1 : Int.tdiv e w ≤ 0 := by omega
      have h2 : ⌊(e : ℚ) / (w : ℚ)⌋ ≤ 0 := by
        apply Int.floor_nonpos
        apply div_nonpos_of_nonpos_of_nonneg
        · exact_mod_cast he.le
        · exact_mod_cast hpos.le
      rw [max_eq_right h1, max_eq_right h2]

/-- With a non-zero wait limit the refill returns, whatever the clock says. -/
theorem updateTokens_done (r : RateLimiter) (now : Int) (hw : r.WaitLimit ≠ 0) :
    r.updateTokens now = .done { r with
      Tokens := min (wrap64 (max (wrap64 (Int.tdiv (Time.Sub now r.lastLocked) r.WaitLimit)) 0
        + r.Tokens)) r.MaxTokens } := by
  simp only [RateLimiter.updateTokens, goDiv_of_ne _ hw, libMax_eq, libMin_eq]

/-- The refill in machine arithmetic, for clock readings. -/
theorem updateTokens_eq (r : RateLimiter) (now : Int) (hw : r.WaitLimit ≠ 0)
    (hnow : IsClock now) (hlast : IsClock r.lastLocked) :
    r.updateTokens now = .done { r with
      Tokens := min (wrap64 (max ⌊((now - r.lastLocked : Int) : ℚ) / (r.WaitLimit : ℚ)⌋ 0
        + r.Tokens)) r.MaxTokens } := by
  have hq : wrap64 (Int.tdiv (now - r.lastLocked) r.WaitLimit)
      = Int.tdiv (now - r.lastLocked) r.WaitLimit := by
    apply wrap64_eq_self
    have := natAbs_tdiv_le (now - r.lastLocked) r.WaitLimit
    unfold IsClock at *
    unfold IsInt64
    omega
  rw [updateTokens_done r now hw, timeSub_of_clock hnow hlast, hq,
    max_tdiv_eq_max_floor _ _ hw]

/-- C4 (amended): for a limiter with `WaitLimit ≠ 0`, clock readings `now` and
`lastLocked`, and a refill sum `max(⌊(now - lastLocked)/WaitLimit⌋, 0) + Tokens`
that fits in an `int`, `updateTokens` returns, sets `Tokens` to the minimum of
that sum and `MaxTokens`, and changes no other field; Go's truncated quotient
clamped at `0` equals the clamped floor for every sign of the operands. -/
theorem C4_updateTokens_refill (r : RateLimiter) (now : Int) (hw : r.WaitLimit ≠ 0)
    (hnow : IsClock now) (hlast : IsClock r.lastLocked)
    (hfit : max ⌊((now - r.lastLocked : Int) : ℚ) / (r.WaitLimit : ℚ)⌋ 0 + r.Tokens
      ≤ maxInt64)
    (htok : minInt64 ≤ r.Tokens) :
    (∃ r2, r.updateTokens now = .done r2
      ∧ r2.Tokens = min (max ⌊((now - r.lastLocked : Int) : ℚ) / (r.WaitLimit : ℚ)⌋ 0
          + r.Tokens) r.MaxTokens
      ∧ r2.lastLocked = r.lastLocked ∧ r2.WaitLimit = r.WaitLimit ∧ r2.Unit = r.Unit
      ∧ r2.MaxTokens = r.MaxTokens ∧ r2.locked = r.locked)
    ∧ max (Int.tdiv (now - r.lastLocked) r.WaitLimit) 0
        = max ⌊((now - r.lastLocked : Int) : ℚ) / (r.WaitLimit : ℚ)⌋ 0 := by
  refine ⟨⟨_, updateTokens_eq r now hw hnow hlast, ?_, rfl, rfl, rfl, rfl, rfl⟩,
    max_tdiv_eq_max_floor _ _ hw⟩
  have h0 : 0 ≤ max ⌊((now - r.lastLocked : Int) : ℚ) / (r.WaitLimit : ℚ)⌋ 0 :=
    le_max_right _ _
  show min (wrap64 _) _ = _
  rw [wrap64_eq_self]
  unfold IsInt64
  unfold maxInt64 at hfit
  unfold minInt64 at htok
  omega

/-- C4 at the limiter of `TestRateLimiting` (three tokens of five, wait limit
100ms) read 250ms after it was last locked. -/
theorem C4_updateTokens_refill_witness :
    (∃ r2, (NewRateLimiter 0 3 5 100000000 1000000000).updateTokens 250000000 = .done r2
      ∧ r2.Tokens = min (max ⌊((250000000 - 0 : Int) : ℚ) / ((100000000 : Int) : ℚ)⌋ 0 + 3) 5
      ∧ r2.lastLocked = 0 ∧ r2.WaitLimit = 100000000 ∧ r2.Unit = 1000000000
      ∧ r2.MaxTokens = 5 ∧ r2.locked = false)
    ∧ max (Int.tdiv (250000000 - 0) 100000000) 0
        = max ⌊((250000000 - 0 : Int) : ℚ) / ((100000000 : Int) : ℚ)⌋ 0 :=
  C4_updateTokens_refill (NewRateLimiter 0 3 5 100000000 1000000000) 250000000
    (by decide) (by decide) (by decide)
    (by
      show max ⌊((250000000 - 0 : Int) : ℚ) / ((100000000 : Int) : ℚ)⌋ 0 + 3 ≤ maxInt64
      rw [← max_tdiv_eq_max_floor _ _ (by decide)]
      decide)
    (by decide)

/-- C4 as stated fails when the refill sum overflows: on a full bucket of
`2^63 - 1` tokens, one wait limit after the last lock, the code stores
`-2^63`, not `min(1 + Tokens, MaxTokens) = 2^63 - 1`. -/
theorem C4_updateTokens_refill_counterexample :
    fullBucket.WaitLimit ≠ 0 ∧ IsClock 1 ∧ IsClock fullBucket.lastLocked
    ∧ fullBucket.updateTokens 1
        = .done { fullBucket with Tokens := -9223372036854775808 }
    ∧ min (max ⌊((1 - fullBucket.lastLocked : Int) : ℚ) / (fullBucket.WaitLimit : ℚ)⌋ 0
          + fullBucket.Tokens) fullBucket.MaxTokens = 9223372036854775807 := by
  refine ⟨by decide, by decide, by decide, by decide, ?_⟩
  rw [← max_tdiv_eq_max_floor _ _ (by decide)]
  decide

/-! ## One bookkeeping pass of `AcquireWithCost` -/

theorem acquirePass_success (r : RateLimiter) (cost t1 t2 : Int) (hw : r.WaitLimit ≠ 0)
    (h : r.Tokens ≥ min (max cost 1) r.MaxTokens) :
    ∃ r2, RateLimiter.updateTokens { r with lastLocked := t1 } t2 = .done r2
      ∧ r.acquirePass cost t1 t2
          = (if r.locked then .blocked { r2 with Tokens := wrap64 (r2.Tokens - cost) }
             else .acquired { r2 with Tokens := wrap64 (r2.Tokens - cost), locked := true })
      ∧ r2.lastLocked = t1 ∧ r2.WaitLimit = r.WaitLimit ∧ r2.Unit = r.Unit
      ∧ r2.MaxTokens = r.MaxTokens ∧ r2.locked = r.locked := by
  have hu := updateTokens_done { r with lastLocked := t1 } t2 hw
  refine ⟨_, hu, ?_, rfl, rfl, rfl, rfl, rfl⟩
  have h2 : r.Tokens ≥ Lib.min (Lib.max cost 1) r.MaxTokens := by
    rw [libMax_eq, libMin_eq]; exact h
  unfold RateLimiter.acquirePass
  rw [if_pos h2, hu]

theorem acquirePass_failure (r : RateLimiter) (cost t1 t2 : Int) (hw : r.WaitLimit ≠ 0)
    (h : ¬ r.Tokens ≥ min (max cost 1) r.MaxTokens) :
    ∃ r2, r.updateTokens t1 = .done r2
      ∧ r.acquirePass cost t1 t2
          = .retry r2 (wrap64 (r.WaitLimit - Time.Sub t2 r.lastLocked))
      ∧ r2.lastLocked = r.lastLocked ∧ r2.WaitLimit = r.WaitLimit ∧ r2.Unit = r.Unit
      ∧ r2.MaxTokens = r.MaxTokens ∧ r2.locked = r.locked := by
  have hu := updateTokens_done r t1 hw
  refine ⟨_, hu, ?_, rfl, rfl, rfl, rfl, rfl⟩
  have h2 : ¬ r.Tokens ≥ Lib.min (Lib.max cost 1) r.MaxTokens := by
    rw [libMax_eq, libMin_eq]; exact h
  unfold RateLimiter.acquirePass
  rw [if_neg h2, hu]

/-- When less than one wait limit passes between the two readings of a pass, the
refill against the new `lastLocked` only caps `Tokens` at `MaxTokens`. -/
theorem updateTokens_no_accrual (r : RateLimiter) (t1 t2 : Int) (hw : r.WaitLimit ≠ 0)
    (h1 : IsClock t1) (h2 : IsClock t2) (htok : IsInt64 r.Tokens) (hle : t1 ≤ t2)
    (hlt : t2 - t1 < r.WaitLimit ∨ r.WaitLimit < 0) :
    RateLimiter.updateTokens { r with lastLocked := t1 } t2
      = .done { r with lastLocked := t1, Tokens := min r.Tokens r.MaxTokens } := by
  have hq : Int.tdiv (t2 - t1) r.WaitLimit ≤ 0 := by
    rcases hlt with h | h
    · rw [Int.tdiv_eq_zero_of_lt (by omega) h]
    · exact Int.tdiv_nonpos (by omega) h.le
  have hb := natAbs_tdiv_le (t2 - t1) r.WaitLimit
  have hwq : wrap64 (Int.tdiv (t2 - t1) r.WaitLimit) = Int.tdiv (t2 - t1) r.WaitLimit := by
    apply wrap64_eq_self
    unfold IsClock at h1 h2
    unfold IsInt64
    omega
  rw [updateTokens_done { r with lastLocked := t1 } t2 hw]
  show Run.done { r with
    lastLocked := t1
    Tokens := min (wrap64 (max (wrap64 (Int.tdiv (Time.Sub t2 t1) r.WaitLimit)) 0
      + r.Tokens)) r.MaxTokens } = _
  rw [timeSub_of_clock h2 h1, hwq, max_eq_right hq, Int.zero_add, wrap64_eq_self htok]

/-- C5 (amended): with `WaitLimit ≠ 0`, a bookkeeping pass of
`AcquireWithCost(cost)` takes the success branch exactly when
`Tokens ≥ min(max(cost, 1), MaxTokens)`.  On success it sets `lastLocked` to the
first reading, refills against it at the second reading and subtracts the
unclamped cost in `int` arithmetic: the new `Tokens` is the refilled value minus
`cost` whenever that fits (and `min(Tokens, MaxTokens) - cost` when, besides,
less than a wait limit passes between the readings).  On failure it only
refills and keeps `lastLocked`.  `WaitLimit`, `Unit`, `MaxTokens` never change. -/
theorem C5_acquirePass (r : RateLimiter) (cost t1 t2 : Int) (hw : r.WaitLimit ≠ 0) :
    ((∃ r3, r.acquirePass cost t1 t2 = .acquired r3 ∨ r.acquirePass cost t1 t2 = .blocked r3)
        ↔ r.Tokens ≥ min (max cost 1) r.MaxTokens)
    ∧ (r.Tokens ≥ min (max cost 1) r.MaxTokens →
        ∃ r2 r3, RateLimiter.updateTokens { r with lastLocked := t1 } t2 = .done r2
          ∧ (r.acquirePass cost t1 t2 = .acquired r3 ∨ r.acquirePass cost t1 t2 = .blocked r3)
          ∧ r3.lastLocked = t1
          ∧ r3.Tokens = wrap64 (r2.Tokens - cost)
          ∧ (IsInt64 (r2.Tokens - cost) → r3.Tokens = r2.Tokens - cost)
          ∧ (IsClock t1 → IsClock t2 → IsInt64 r.Tokens → t1 ≤ t2 →
              (t2 - t1 < r.WaitLimit ∨ r.WaitLimit < 0) →
              IsInt64 (min r.Tokens r.MaxTokens - cost) →
              r3.Tokens = min r.Tokens r.MaxTokens - cost)
          ∧ r3.WaitLimit = r.WaitLimit ∧ r3.Unit = r.Unit ∧ r3.MaxTokens = r.MaxTokens)
    ∧ (¬ r.Tokens ≥ min (max cost 1) r.MaxTokens →
        ∃ r2 sleep, r.updateTokens t1 = .done r2
          ∧ r.acquirePass cost t1 t2 = .retry r2 sleep
          ∧ r2.lastLocked = r.lastLocked
          ∧ r2.WaitLimit = r.WaitLimit ∧ r2.Unit = r.Unit ∧ r2.MaxTokens = r.MaxTokens) := by
  have hsucc : r.Tokens ≥ min (max cost 1) r.MaxTokens →
      ∃ r2 r3, RateLimiter.updateTokens { r with lastLocked := t1 } t2 = .done r2
        ∧ (r.acquirePass cost t1 t2 = .acquired r3 ∨ r.acquirePass cost t1 t2 = .blocked r3)
        ∧ r3.lastLocked = t1
        ∧ r3.Tokens = wrap64 (r2.Tokens - cost)
        ∧ (IsInt64 (r2.Tokens - cost) → r3.Tokens = r2.Tokens - cost)
        ∧ (IsClock t1 → IsClock t2 → IsInt64 r.Tokens → t1 ≤ t2 →
            (t2 - t1 < r.WaitLimit ∨ r.WaitLimit < 0) →
            IsInt64 (min r.Tokens r.MaxTokens - cost) →
            r3.Tokens = min r.Tokens r.MaxTokens - cost)
        ∧ r3.WaitLimit = r.WaitLimit ∧ r3.Unit = r.Unit ∧ r3.MaxTokens = r.MaxTokens := by
    intro h
    obtain ⟨r2, hu, hp, hl, hwl, hun, hmx, _⟩ := acquirePass_success r cost t1 t2 hw h
    have hna : IsClock t1 → IsClock t2 → IsInt64 r.Tokens → t1 ≤ t2 →
        (t2 - t1 < r.WaitLimit ∨ r.WaitLimit < 0) →
        IsInt64 (min r.Tokens r.MaxTokens - cost) →
        wrap64 (r2.Tokens - cost) = min r.Tokens r.MaxTokens - cost := by
      intro c1 c2 ht hle hlt hfit
      have hu2 := updateTokens_no_accrual r t1 t2 hw c1 c2 ht hle hlt
      rw [hu] at hu2
      have : r2.Tokens = min r.Tokens r.MaxTokens := by
        injection hu2 with hu3
        rw [hu3]
      rw [this, wrap64_eq_self hfit]
    by_cases hlk : r.locked = true
    · rw [if_pos hlk] at hp
      exact ⟨r2, _, hu, Or.inr hp, hl, rfl, fun hf => wrap64_eq_self hf, hna, hwl, hun, hmx⟩
    · rw [if_neg hlk] at hp
      exact ⟨r2, _, hu, Or.inl hp, hl, rfl, fun hf => wrap64_eq_self hf, hna, hwl, hun, hmx⟩
  have hfail : ¬ r.Tokens ≥ min (max cost 1) r.MaxTokens →
      ∃ r2 sleep, r.updateTokens t1 = .done r2
        ∧ r.acquirePass cost t1 t2 = .retry r2 sleep
        ∧ r2.lastLocked = r.lastLocked
        ∧ r2.WaitLimit = r.WaitLimit ∧ r2.Unit = r.Unit ∧ r2.MaxTokens = r.MaxTokens := by
    intro h
    obtain ⟨r2, hu, hp, hl, hwl, hun, hmx, _⟩ := acquirePass_failure r cost t1 t2 hw h
    exact ⟨r2, _, hu, hp, hl, hwl, hun, hmx⟩
  refine ⟨⟨?_, ?_⟩, hsucc, hfail⟩
  · rintro ⟨r3, h3⟩
    by_contra hn
    obtain ⟨r2, sleep, _, hp, _⟩ := hfail hn
    rw [hp] at h3
    rcases h3 with h3 | h3 <;> exact Pass.noConfusion h3
  · intro h
    obtain ⟨_, r3, _, hp, _⟩ := hsucc h
    exact ⟨r3, hp⟩

/-- C5 at the limiter of `TestRateLimiting` (three tokens of five, wait limit
100ms) and cost `2`, both readings 50ms after construction. -/
theorem C5_acquirePass_witness :
    (NewRateLimiter 0 3 5 100000000 1000000000).WaitLimit ≠ 0
    ∧ (NewRateLimiter 0 3 5 100000000 1000000000).acquirePass 2 50000000 50000000
        = .acquired { NewRateLimiter 50000000 1 5 100000000 1000000000 with locked := true }
    ∧ ((∃ r3, (NewRateLimiter 0 3 5 100000000 1000000000).acquirePass 2 50000000 50000000
            = .acquired r3
          ∨ (NewRateLimiter 0 3 5 100000000 1000000000).acquirePass 2 50000000 50000000
            = .blocked r3)
        ↔ (NewRateLimiter 0 3 5 100000000 1000000000).Tokens
            ≥ min (max 2 1) (NewRateLimiter 0 3 5 100000000 1000000000).MaxTokens) :=
  ⟨by decide, by decide,
    (C5_acquirePass (NewRateLimiter 0 3 5 100000000 1000000000) 2 50000000 50000000
      (by decide)).1⟩

/-- C5 as stated fails when the deduction overflows: with one token of five and
cost `-2^63` the pass succeeds and stores `-2^63 + 1`, not
`min(Tokens, MaxTokens) - cost = 2^63 + 1`. -/
theorem C5_acquirePass_counterexample :
    oneToken.WaitLimit ≠ 0
    ∧ oneToken.Tokens ≥ min (max (-9223372036854775808) 1) oneToken.MaxTokens
    ∧ oneToken.acquirePass (-9223372036854775808) 0 0
        = .acquired { oneToken with Tokens := -9223372036854775807, locked := true }
    ∧ min oneToken.Tokens oneToken.MaxTokens - (-9223372036854775808)
        ≠ -9223372036854775807 := by
  refine ⟨by decide, by decide, by decide, by decide⟩

/-! ## `AddTokens` -/

/-- C7 (amended): `AddTokens(n)` sets `Tokens` to the minimum of `MaxTokens` and
the `int` sum `Tokens + n`, which is `min(MaxTokens, Tokens + n)` whenever the
sum fits in an `int`; it leaves `MaxTokens`, `WaitLimit`, `Unit`, `lastLocked`
and the lock unchanged, and the new `Tokens` is the same whatever `lastLocked`
is. -/
theorem C7_AddTokens (r : RateLimiter) (n : Int) :
    (r.AddTokens n).Tokens = min r.MaxTokens (wrap64 (r.Tokens + n))
    ∧ (IsInt64 (r.Tokens + n) → (r.AddTokens n).Tokens = min r.MaxTokens (r.Tokens + n))
    ∧ (r.AddTokens n).MaxTokens = r.MaxTokens
    ∧ (r.AddTokens n).WaitLimit = r.WaitLimit
    ∧ (r.AddTokens n).Unit = r.Unit
    ∧ (r.AddTokens n).lastLocked = r.lastLocked
    ∧ (r.AddTokens n).locked = r.locked
    ∧ ∀ t : Int, (RateLimiter.AddTokens { r with lastLocked := t } n).Tokens
        = (r.AddTokens n).Tokens := by
  have h : (r.AddTokens n).Tokens = min r.MaxTokens (wrap64 (r.Tokens + n)) := by
    simp only [RateLimiter.AddTokens, libMin_eq]
  refine ⟨h, ?_, rfl, rfl, rfl, rfl, rfl, fun _ => rfl⟩
  intro hfit
  rw [h, wrap64_eq_self hfit]

/-- C7 at the step `r.AddTokens(5)` of `TestRateLimiter_AddTokens`. -/
theorem C7_AddTokens_witness :
    IsInt64 ((NewRateLimiter 0 0 10 100000000 1000000000).Tokens + 5)
    ∧ ((NewRateLimiter 0 0 10 100000000 1000000000).AddTokens 5).Tokens
        = min (NewRateLimiter 0 0 10 100000000 1000000000).MaxTokens
            ((NewRateLimiter 0 0 10 100000000 1000000000).Tokens + 5)
    ∧ ((NewRateLimiter 0 0 10 100000000 1000000000).AddTokens 5).Tokens = 5 :=
  ⟨by decide,
    (C7_AddTokens (NewRateLimiter 0 0 10 100000000 1000000000) 5).2.1 (by decide),
    by decide⟩

/-- C7 as stated fails when the sum overflows: adding one token to a bucket of
`2^63 - 1` leaves `-2^63`, not `min(MaxTokens, Tokens + 1) = 2^63 - 1`. -/
theorem C7_AddTokens_counterexample :
    (fullBucket.AddTokens 1).Tokens = -9223372036854775808
    ∧ min fullBucket.MaxTokens (fullBucket.Tokens + 1) = 9223372036854775807 := by
  refine ⟨by decide, by decide⟩

/-! ## The bound `Tokens ≤ MaxTokens` -/

theorem updateTokens_bounds (r r2 : RateLimiter) (now : Int)
    (h : r.updateTokens now = .done r2) :
    r2.Tokens ≤ r2.MaxTokens ∧ r2.Tokens ≤ maxInt64 ∧ r2.MaxTokens = r.MaxTokens := by
  unfold RateLimiter.updateTokens at h
  cases hq : goDiv (Time.Sub now r.lastLocked) r.WaitLimit with
  | none => rw [hq] at h; exact Run.noConfusion h
  | some q =>
    rw [hq] at h
    injection h with h
    subst h
    have hb := isInt64_wrap64 (Lib.max q 0 + r.Tokens)
    unfold IsInt64 at hb
    simp only [libMin_eq]
    unfold maxInt64
    refine ⟨min_le_right _ _, ?_, trivial⟩
    exact le_trans (min_le_left _ _) hb.2

theorem acquire_run_bound (r r2 : RateLimiter) (cost t1 t2 : Int)
    (hin : (Op.acquire cost t1 t2).inRange r = true)
    (hrun : (Op.acquire cost t1 t2).run r = some r2) :
    r2.Tokens ≤ r2.MaxTokens ∧ r2.MaxTokens = r.MaxTokens := by
  simp only [Op.inRange, Bool.and_eq_true, decide_eq_true_eq] at hin
  obtain ⟨hc, hded⟩ := hin
  simp only [Op.run, RateLimiter.acquirePass] at hrun
  by_cases hchk : r.Tokens ≥ Lib.min (Lib.max cost 1) r.MaxTokens
  · rw [if_pos hchk] at hrun hded
    cases hu : RateLimiter.updateTokens { r with lastLocked := t1 } t2 with
    | done ru =>
      rw [hu] at hrun hded
      have hb := updateTokens_bounds _ _ _ hu
      simp only [decide_eq_true_eq] at hded
      have hfit : wrap64 (ru.Tokens - cost) = ru.Tokens - cost := by
        apply wrap64_eq_self
        unfold IsInt64
        unfold minInt64 at hded
        have := hb.2.1
        unfold maxInt64 at this
        omega
      by_cases hlk : ru.locked = true
      · simp [hlk] at hrun
      · simp only [hlk, if_false] at hrun
        injection hrun with hrun
        subst hrun
        simp only [hfit]
        exact ⟨by have := hb.1; omega, hb.2.2⟩
    | panic => rw [hu] at hrun; simp at hrun
    | fuelOut => rw [hu] at hrun; simp at hrun
  · rw [if_neg hchk] at hrun
    cases hu : r.updateTokens t1 with
    | done ru =>
      rw [hu] at hrun
      have hb := updateTokens_bounds _ _ _ hu
      simp only at hrun
      injection hrun with hrun
      subst hrun
      exact ⟨hb.1, hb.2.2⟩
    | panic => rw [hu] at hrun; simp at hrun
    | fuelOut => rw [hu] at hrun; simp at hrun

theorem changeLimit_bound (r r2 : RateLimiter) (res : ChangeResult)
    (h : (match res with
          | .done (limit, none) => Run.done { r with WaitLimit := limit }
          | .done (_, some _) => Run.done r
          | .panic => Run.panic
          | .fuelOut => Run.fuelOut) = Run.done r2) :
    r2 = r ∨ ∃ limit, r2 = { r with WaitLimit := limit } := by
  rcases res with ⟨limit, _ | msg⟩ | _ | _
  · injection h with h
    exact Or.inr ⟨limit, h.symm⟩
  · injection h with h
    exact Or.inl h.symm
  · exact Run.noConfusion h
  · exact Run.noConfusion h

theorem op_run_bound (r r2 : RateLimiter) (op : Op) (h : r.Tokens ≤ r.MaxTokens)
    (hin : op.inRange r = true) (hrun : op.run r = some r2) :
    r2.Tokens ≤ r2.MaxTokens ∧ r2.MaxTokens = r.MaxTokens := by
  cases op with
  | acquire cost t1 t2 => exact acquire_run_bound r r2 cost t1 t2 hin hrun
  | addTokens n =>
    simp only [Op.run, RateLimiter.AddTokens, libMin_eq] at hrun
    injection hrun with hrun
    subst hrun
    exact ⟨min_le_left _ _, rfl⟩
  | setLimit d =>
    simp only [Op.run, RateLimiter.SetLimit] at hrun
    injection hrun with hrun
    subst hrun
    exact ⟨h, rfl⟩
  | increaseLimit c =>
    simp only [Op.run] at hrun
    cases hr : r.IncreaseLimit c with
    | done r3 =>
      rw [hr] at hrun
      injection hrun with hrun
      subst hrun
      rcases changeLimit_bound r r3 _ hr with rfl | ⟨_, rfl⟩
      · exact ⟨h, rfl⟩
      · exact ⟨h, rfl⟩
    | panic => rw [hr] at hrun; simp at hrun
    | fuelOut => rw [hr] at hrun; simp at hrun
  | decreaseLimit c =>
    simp only [Op.run] at hrun
    cases hr : r.DecreaseLimit c with
    | done r3 =>
      rw [hr] at hrun
      injection hrun with hrun
      subst hrun
      rcases changeLimit_bound r r3 _ hr with rfl | ⟨_, rfl⟩
      · exact ⟨h, rfl⟩
      · exact ⟨h, rfl⟩
    | panic => rw [hr] at hrun; simp at hrun
    | fuelOut => rw [hr] at hrun; simp at hrun
  | unlock =>
    simp only [Op.run, RateLimiter.Unlock] at hrun
    by_cases hlk : r.locked = true
    · simp only [hlk, if_true] at hrun
      injection hrun with hrun
      subst hrun
      exact ⟨h, rfl⟩
    · simp [hlk] at hrun

theorem runOps_bound : ∀ (ops : List Op) (r r2 : RateLimiter), r.Tokens ≤ r.MaxTokens →
    runInRange r ops = true → runOps r ops = some r2 →
    r2.Tokens ≤ r2.MaxTokens ∧ r2.MaxTokens = r.MaxTokens := by
  intro ops
  induction ops with
  | nil =>
    intro r r2 h _ hrun
    simp only [runOps] at hrun
    injection hrun with hrun
    subst hrun
    exact ⟨h, rfl⟩
  | cons op ops ih =>
    intro r r2 h hin hrun
    simp only [runInRange, Bool.and_eq_true] at hin
    simp only [runOps] at hrun
    cases hop : op.run r with
    | none => rw [hop] at hrun; simp at hrun
    | some r1 =>
      rw [hop] at hrun hin
      have h1 := op_run_bound r r1 op h hin.1 hop
      have h2 := ih r1 r2 h1.1 hin.2 hrun
      exact ⟨h2.1, h2.2.trans h1.2⟩

/-- C6 (amended): for a limiter built by `NewRateLimiter` with
`tokens ≤ maxTokens`, and a sequential run of operations in which every
bookkeeping pass has a cost `≥ 0` and a deduction that does not fall below the
smallest `int`, `Tokens ≤ MaxTokens` holds after the run, and `MaxTokens` is
still the constructor's. -/
theorem C6_tokens_le_maxTokens (now tokens maxTokens wait unit : Int) (ops : List Op)
    (r2 : RateLimiter) (hinit : tokens ≤ maxTokens)
    (hin : runInRange (NewRateLimiter now tokens maxTokens wait unit) ops = true)
    (hrun : runOps (NewRateLimiter now tokens maxTokens wait unit) ops = some r2) :
    r2.Tokens ≤ r2.MaxTokens ∧ r2.MaxTokens = maxTokens :=
  runOps_bound ops (NewRateLimiter now tokens maxTokens wait unit) r2 hinit hin hrun

/-- C6 on `sampleRun`, from the limiter of `TestRateLimiter_AddTokens`; the run
completes with two tokens of ten. -/
theorem C6_tokens_le_maxTokens_witness :
    runInRange (NewRateLimiter 0 0 10 3600000000000 1000000000) sampleRun = true
    ∧ runOps (NewRateLimiter 0 0 10 3600000000000 1000000000) sampleRun
        = some { NewRateLimiter 20 2 10 100000000 1000000000 with locked := false }
    ∧ (2 : Int) ≤ 10 :=
  ⟨by decide, by decide,
    (C6_tokens_le_maxTokens 0 0 10 3600000000000 1000000000 sampleRun
      { NewRateLimiter 20 2 10 100000000 1000000000 with locked := false }
      (by decide) (by decide) (by decide)).1⟩

/-- C6 as stated fails in three ways: the constructor stores `tokens = 5` over
`maxTokens = 3` unchanged; a pass with cost `-5` raises one token of three to
six; and a deduction that wraps around leaves `2^63 - 1` tokens of five. -/
theorem C6_tokens_le_maxTokens_counterexample :
    (runOps (NewRateLimiter 0 5 3 1000000000 1000000000) []
        = some (NewRateLimiter 0 5 3 1000000000 1000000000)
      ∧ ¬ (NewRateLimiter 0 5 3 1000000000 1000000000).Tokens
          ≤ (NewRateLimiter 0 5 3 1000000000 1000000000).MaxTokens)
    ∧ (runOps (NewRateLimiter 0 1 3 1000000000 1000000000) [.acquire (-5) 0 0]
        = some { NewRateLimiter 0 6 3 1000000000 1000000000 with locked := true }
      ∧ ¬ (6 : Int) ≤ 3)
    ∧ (runOps (NewRateLimiter 0 1 5 1 1000000000) [.acquire 1 0 9223372036854775807]
        = some { NewRateLimiter 0 9223372036854775807 5 1 1000000000 with locked := true }
      ∧ ¬ (9223372036854775807 : Int) ≤ 5) := by
  refine ⟨⟨by decide, by decide⟩, ⟨by decide, by decide⟩, ⟨by decide, by decide⟩⟩

/-! ## `IncreaseLimit` and `DecreaseLimit` -/

/-- C9: when the changer's `Increase` (`Decrease`) returns an error,
`IncreaseLimit` (`DecreaseLimit`) returns and leaves the limiter as it was; when
it returns `(d, nil)`, the only field that changes is `WaitLimit`, which
becomes `d`. -/
theorem C9_changeLimit (r : RateLimiter) (changer : LimitChanger) :
    (∀ d msg, changer.Increase r.WaitLimit [.limiter r] = .done (d, some msg) →
        r.IncreaseLimit changer = .done r)
    ∧ (∀ d, changer.Increase r.WaitLimit [.limiter r] = .done (d, none) →
        r.IncreaseLimit changer = .done { r with WaitLimit := d })
    ∧ (∀ d msg, changer.Decrease r.WaitLimit [.limiter r] = .done (d, some msg) →
        r.DecreaseLimit changer = .done r)
    ∧ (∀ d, changer.Decrease r.WaitLimit [.limiter r] = .done (d, none) →
        r.DecreaseLimit changer = .done { r with WaitLimit := d }) := by
  refine ⟨?_, ?_, ?_, ?_⟩
  · intro d msg h
    simp only [RateLimiter.IncreaseLimit, h]
  · intro d h
    simp only [RateLimiter.IncreaseLimit, h]
  · intro d msg h
    simp only [RateLimiter.DecreaseLimit, h]
  · intro d h
    simp only [RateLimiter.DecreaseLimit, h]

/-- C9 at the limiter of the tests: a changer that fails leaves it untouched,
the built-in changer installs 1.5s after 1s and 900ms after 1s. -/
theorem C9_changeLimit_witness :
    (testLimiter 1000000000).IncreaseLimit forgetful = .done (testLimiter 1000000000)
    ∧ (testLimiter 1000000000).DecreaseLimit forgetful = .done (testLimiter 1000000000)
    ∧ (testLimiter 1000000000).IncreaseLimit (LimitChange.changer 1)
        = .done { testLimiter 1000000000 with WaitLimit := 1500000000 }
    ∧ (testLimiter 1000000000).DecreaseLimit (LimitChange.changer 1)
        = .done { testLimiter 1000000000 with WaitLimit := 900000000 } :=
  ⟨(C9_changeLimit (testLimiter 1000000000) forgetful).1 0 needUnitMsg (by decide),
   (C9_changeLimit (testLimiter 1000000000) forgetful).2.2.1 0 needUnitMsg (by decide),
   (C9_changeLimit (testLimiter 1000000000) (LimitChange.changer 1)).2.1
      1500000000 (by decide),
   (C9_changeLimit (testLimiter 1000000000) (LimitChange.changer 1)).2.2.2
      900000000 (by decide)⟩

/-! ## The missing-context error -/

/-- C10: `LimitChange.Increase` and `LimitChange.Decrease` return a non-nil
error exactly when `states` is empty, and then together with duration `0`;
whenever a call with at least one state returns, its error is `nil`. -/
theorem C10_error_iff_no_state (fuel : Nat) (limit : Int) :
    LimitChange.Increase limit [] = .done (0, some needUnitMsg)
    ∧ LimitChange.Decrease fuel limit [] = .done (0, some needUnitMsg)
    ∧ (∀ (states : List StateArg) (d : Int) (msg : String),
        LimitChange.Increase limit states = .done (d, some msg) ↔
          states = [] ∧ d = 0 ∧ msg = needUnitMsg)
    ∧ (∀ (states : List StateArg) (d : Int) (msg : String),
        LimitChange.Decrease fuel limit states = .done (d, some msg) ↔
          states = [] ∧ d = 0 ∧ msg = needUnitMsg)
    ∧ (∀ (a : StateArg) (rest : List StateArg) (d : Int) (e : Option String),
        LimitChange.Increase limit (a :: rest) = .done (d, e) → e = none)
    ∧ (∀ (a : StateArg) (rest : List StateArg) (d : Int) (e : Option String),
        LimitChange.Decrease fuel limit (a :: rest) = .done (d, e) → e = none) := by
  have hinc : ∀ (a : StateArg) (rest : List StateArg) (d : Int) (e : Option String),
      LimitChange.Increase limit (a :: rest) = .done (d, e) → e = none := by
    intro a rest d e h
    cases a with
    | limiter r =>
      simp only [LimitChange.Increase, LimitChange.increaseBody] at h
      split_ifs at h
      · injection h with h; injection h with _ h; exact h.symm
      · injection h with h; injection h with _ h; exact h.symm
      · injection h with h; injection h with _ h; exact h.symm
      · split at h
        · exact Run.noConfusion h
        · split at h
          · exact Run.noConfusion h
          · split at h
            · exact Run.noConfusion h
            · injection h with h; injection h with _ h; exact h.symm
    | nilLimiter => exact Run.noConfusion h
    | other => exact Run.noConfusion h
  have hdec : ∀ (a : StateArg) (rest : List StateArg) (d : Int) (e : Option String),
      LimitChange.Decrease fuel limit (a :: rest) = .done (d, e) → e = none := by
    intro a rest d e h
    cases a with
    | limiter r =>
      simp only [LimitChange.Decrease, LimitChange.decreaseBody] at h
      split_ifs at h
      · injection h with h; injection h with _ h; exact h.symm
      · injection h with h; injection h with _ h; exact h.symm
      · injection h with h; injection h with _ h; exact h.symm
      · split at h
        · exact Run.noConfusion h
        · split at h
          · exact Run.noConfusion h
          · split_ifs at h
            · injection h with h; injection h with _ h; exact h.symm
            · injection h with h; injection h with _ h; exact h.symm
    | nilLimiter =>
      simp only [LimitChange.Decrease] at h
      split_ifs at h
      all_goals first
        | exact Run.noConfusion h
        | (injection h with h; injection h with _ h; exact h.symm)
    | other => exact Run.noConfusion h
  refine ⟨rfl, rfl, ?_, ?_, hinc, hdec⟩
  · intro states d msg
    constructor
    · intro h
      cases states with
      | nil =>
        injection h with h
        injection h with h1 h2
        injection h2 with h2
        exact ⟨rfl, h1.symm, h2.symm⟩
      | cons a rest => exact Option.noConfusion (hinc a rest d _ h)
    · rintro ⟨rfl, rfl, rfl⟩
      rfl
  · intro states d msg
    constructor
    · intro h
      cases states with
      | nil =>
        injection h with h
        injection h with h1 h2
        injection h2 with h2
        exact ⟨rfl, h1.symm, h2.symm⟩
      | cons a rest => exact Option.noConfusion (hdec a rest d _ h)
    · rintro ⟨rfl, rfl, rfl⟩
      rfl

/-- C10 at a call that returns: with the limiter of the tests as context,
`Increase(1s)` and `Decrease(1s)` return, and their error is `nil`. -/
theorem C10_error_iff_no_state_witness :
    LimitChange.Increase 1000000000 [.limiter (testLimiter 1000000000)]
        = .done (1500000000, none)
    ∧ LimitChange.Decrease 1 1000000000 [.limiter (testLimiter 1000000000)]
        = .done (900000000, none)
    ∧ (none : Option String) = none :=
  ⟨by decide, by decide,
    (C10_error_iff_no_state 1 1000000000).2.2.2.2.1 (.limiter (testLimiter 1000000000)) []
      1500000000 none (by decide)⟩

/-! ## `Lock` after a top-up -/

/-- A `Lock` on a free limiter that holds at least one token returns after its
first bookkeeping pass, one token poorer at most. -/
theorem lock_first_pass (fuel : Nat) (r : RateLimiter) (clock : Nat → Int) (i : Nat)
    (hf : 1 ≤ fuel) (hw : r.WaitLimit ≠ 0) (hlk : r.locked = false)
    (h1 : 1 ≤ r.Tokens) (hM : r.Tokens ≤ r.MaxTokens)
    (hc1 : IsClock (clock i)) (hc2 : IsClock (clock (i + 1)))
    (hfit : max ⌊((clock (i + 1) - clock i : Int) : ℚ) / (r.WaitLimit : ℚ)⌋ 0
      + r.MaxTokens ≤ maxInt64) :
    ∃ r3, r.Lock fuel clock i = .locked r3 (i + 2) ∧ r3.locked = true
      ∧ r3.WaitLimit = r.WaitLimit ∧ r3.MaxTokens = r.MaxTokens
      ∧ r.Tokens - 1 ≤ r3.Tokens ∧ r3.Tokens ≤ r3.MaxTokens := by
  obtain ⟨f, rfl⟩ := Nat.exists_eq_succ_of_ne_zero (by omega : fuel ≠ 0)
  have hchk : r.Tokens ≥ min (max 1 1) r.MaxTokens := by
    rw [max_self]
    exact le_trans (min_le_left _ _) h1
  obtain ⟨r2, hu, hp, _, _, _, _, _⟩ :=
    acquirePass_success r 1 (clock i) (clock (i + 1)) hw hchk
  have hu2 := updateTokens_eq { r with lastLocked := clock i } (clock (i + 1)) hw hc2 hc1
  rw [hu] at hu2
  injection hu2 with hu2
  have h0 : 0 ≤ max ⌊((clock (i + 1) - clock i : Int) : ℚ) / (r.WaitLimit : ℚ)⌋ 0 :=
    le_max_right _ _
  unfold maxInt64 at hfit
  have hsum : wrap64 (max ⌊((clock (i + 1) - clock i : Int) : ℚ) / (r.WaitLimit : ℚ)⌋ 0
      + r.Tokens)
      = max ⌊((clock (i + 1) - clock i : Int) : ℚ) / (r.WaitLimit : ℚ)⌋ 0 + r.Tokens := by
    apply wrap64_eq_self
    unfold IsInt64
    omega
  have ht : r2.Tokens
      = min (max ⌊((clock (i + 1) - clock i : Int) : ℚ) / (r.WaitLimit : ℚ)⌋ 0 + r.Tokens)
          r.MaxTokens := by
    rw [hu2]
    show min (wrap64 _) _ = _
    rw [hsum]
  have hlow : r.Tokens ≤ r2.Tokens := by
    rw [ht]
    exact le_min (by omega) hM
  have hup : r2.Tokens ≤ r.MaxTokens := by
    rw [ht]
    exact min_le_right _ _
  have hded : wrap64 (r2.Tokens - 1) = r2.Tokens - 1 := by
    apply wrap64_eq_self
    unfold IsInt64
    omega
  have hmx : r2.MaxTokens = r.MaxTokens := by rw [hu2]
  have hwl : r2.WaitLimit = r.WaitLimit := by rw [hu2]
  rw [hlk] at hp
  simp only [Bool.false_eq_true, if_false] at hp
  refine ⟨{ r2 with Tokens := wrap64 (r2.Tokens - 1), locked := true },
    ?_, rfl, hwl, hmx, ?_, ?_⟩
  · simp only [RateLimiter.Lock, RateLimiter.AcquireWithCost, hp]
  · show r.Tokens - 1 ≤ wrap64 (r2.Tokens - 1)
    rw [hded]
    omega
  · show wrap64 (r2.Tokens - 1) ≤ r2.MaxTokens
    rw [hded, hmx]
    omega

theorem lockUnlockLoop_first_pass (fuel : Nat) (clock : Nat → Int) (hf : 1 ≤ fuel)
    (hclock : ∀ j, IsClock (clock j)) :
    ∀ (k : Nat) (r : RateLimiter) (i : Nat), r.WaitLimit ≠ 0 → r.locked = false →
      (k : Int) ≤ r.Tokens → r.Tokens ≤ r.MaxTokens →
      (∀ m, m < k →
        max ⌊((clock (i + 2 * m + 1) - clock (i + 2 * m) : Int) : ℚ) / (r.WaitLimit : ℚ)⌋ 0
          + r.MaxTokens ≤ maxInt64) →
      ∃ r2, lockUnlockLoop fuel k r clock i = some (r2, i + 2 * k)
        ∧ r.Tokens - k ≤ r2.Tokens ∧ r2.Tokens ≤ r2.MaxTokens ∧ r2.locked = false := by
  intro k
  induction k with
  | zero =>
    intro r i _ hlk _ hM _
    exact ⟨r, rfl, by simp, hM, hlk⟩
  | succ k ih =>
    intro r i hw hlk hk hM hfit
    have hfit0 := hfit 0 (by omega)
    simp only [Nat.mul_zero, Nat.add_zero] at hfit0
    obtain ⟨r3, hL, hl3, hw3, hm3, ht3, hle3⟩ :=
      lock_first_pass fuel r clock i hf hw hlk (by push_cast at hk; omega) hM
        (hclock i) (hclock (i + 1)) hfit0
    have hfit2 : ∀ m, m < k →
        max ⌊((clock (i + 2 + 2 * m + 1) - clock (i + 2 + 2 * m) : Int) : ℚ)
            / (r.WaitLimit : ℚ)⌋ 0 + r.MaxTokens ≤ maxInt64 := by
      intro m hm
      have := hfit (m + 1) (by omega)
      have e : i + 2 * (m + 1) = i + 2 + 2 * m := by omega
      rwa [e] at this
    obtain ⟨r2, hloop, hlow, hup, hfree⟩ :=
      ih { r3 with locked := false } (i + 2) (by simpa using hw3 ▸ hw) rfl
        (by
          show (k : Int) ≤ r3.Tokens
          push_cast at hk
          omega)
        hle3
        (by
          show ∀ m, m < k →
            max ⌊((clock (i + 2 + 2 * m + 1) - clock (i + 2 + 2 * m) : Int) : ℚ)
                / (r3.WaitLimit : ℚ)⌋ 0 + r3.MaxTokens ≤ maxInt64
          rw [hw3, hm3]
          exact hfit2)
    refine ⟨r2, ?_, ?_, hup, hfree⟩
    · simp only [lockUnlockLoop, hL, RateLimiter.Unlock, hl3, if_true]
      rw [hloop]
      congr 2
      omega
    · have : r3.Tokens - k ≤ r2.Tokens := hlow
      push_cast
      omega

/-- C8 (amended): on a free limiter with `WaitLimit ≠ 0` and `Tokens = k`,
`1 ≤ k ≤ MaxTokens`, with clock readings for which the refill sum cannot
overflow (`max(⌊elapsed/WaitLimit⌋, 0) + MaxTokens` fits in an `int` in each
pass), `k` consecutive `Lock()`/`Unlock()` pairs all complete, each `Lock` in
one bookkeeping pass (two clock readings per pair, even with a budget of a
single pass), however little time has elapsed. -/
theorem C8_lock_pairs_first_pass (fuel k : Nat) (r : RateLimiter) (clock : Nat → Int)
    (i : Nat) (hf : 1 ≤ fuel) (hw : r.WaitLimit ≠ 0) (hlk : r.locked = false)
    (hT : r.Tokens = k) (hM : (k : Int) ≤ r.MaxTokens)
    (hclock : ∀ j, IsClock (clock j))
    (hfit : ∀ m, m < k →
      max ⌊((clock (i + 2 * m + 1) - clock (i + 2 * m) : Int) : ℚ) / (r.WaitLimit : ℚ)⌋ 0
        + r.MaxTokens ≤ maxInt64) :
    ∃ r2, lockUnlockLoop fuel k r clock i = some (r2, i + 2 * k)
      ∧ 0 ≤ r2.Tokens ∧ r2.Tokens ≤ r2.MaxTokens ∧ r2.locked = false := by
  obtain ⟨r2, h1, h2, h3, h4⟩ :=
    lockUnlockLoop_first_pass fuel clock hf hclock k r i hw hlk (by omega) (by omega) hfit
  exact ⟨r2, h1, by omega, h3, h4⟩

/-- C8 on the scenario of `TestRateLimiter_AddTokens`: after `AddTokens(5)` on
the empty bucket, five `Lock()`/`Unlock()` pairs complete with one pass each
and leave no token. -/
theorem C8_lock_pairs_first_pass_witness :
    toppedUp.Tokens = 5
    ∧ lockUnlockLoop 1 5 toppedUp slowClock 0
        = some ({ toppedUp with Tokens := 0, lastLocked := 8 }, 10)
    ∧ ∃ r2, lockUnlockLoop 1 5 toppedUp slowClock 0 = some (r2, 0 + 2 * 5)
        ∧ 0 ≤ r2.Tokens ∧ r2.Tokens ≤ r2.MaxTokens ∧ r2.locked = false :=
  ⟨by decide, by decide,
    C8_lock_pairs_first_pass 1 5 toppedUp slowClock 0 (by decide) (by decide) (by decide)
      (by decide) (by decide)
      (by
        intro j
        unfold IsClock slowClock
        omega)
      (by
        intro m hm
        rw [← max_tdiv_eq_max_floor _ _ (by decide)]
        interval_cases m <;> decide)⟩

/-- C8 as stated fails when the refill sum overflows: with
`Tokens = MaxTokens = 2^63 - 1`, wait limit 1ns and 3ns between the two
readings of the first `Lock`, that `Lock` leaves `-2^63 + 1` tokens, and the
second `Lock` fails the token check on its first pass. -/
theorem C8_lock_pairs_first_pass_counterexample :
    fullBucket.WaitLimit > 0
    ∧ fullBucket.Tokens = ((9223372036854775807 : Nat) : Int)
    ∧ ((9223372036854775807 : Nat) : Int) ≤ fullBucket.MaxTokens
    ∧ (∀ j, stepClock j ≤ stepClock (j + 1))
    ∧ fullBucket.acquirePass 1 (stepClock 0) (stepClock 1)
        = .acquired { fullBucket with Tokens := -9223372036854775807, locked := true }
    ∧ RateLimiter.Unlock { fullBucket with Tokens := -9223372036854775807, locked := true }
        = .done { fullBucket with Tokens := -9223372036854775807 }
    ∧ RateLimiter.acquirePass { fullBucket with Tokens := -9223372036854775807 } 1
          (stepClock 2) (stepClock 3)
        = .retry { fullBucket with Tokens := -9223372036854775804 } (-2)
    ∧ lockUnlockLoop 1 2 fullBucket stepClock 0 = none := by
  refine ⟨by decide, by decide, by decide, ?_, by decide, by decide, by decide, by decide⟩
  intro j
  unfold stepClock
  rw [if_neg (Nat.succ_ne_zero j)]
  split_ifs <;> decide

/-! ## Division by zero in `LimitChange.Increase` -/

theorem tdiv_thousand_eq_zero_iff (u : Int) : Int.tdiv u 1000 = 0 ↔ |u| < 1000 := by
  rw [abs_lt]
  rcases Int.le_total 0 u with h | h
  · rw [tdiv_of_nonneg h (by decide)]; omega
  · have : Int.tdiv u 1000 = -((-u) / 1000) := by
      have := Int.neg_tdiv (-u) 1000
      rw [Int.neg_neg] at this
      rw [this, tdiv_of_nonneg (by omega) (by decide)]
    rw [this]; omega

/-- The 1.5x branch with a unit below one microsecond stops at the modulus. -/
theorem increase_third_branch_panic (limit unit : Int) (hu : IsInt64 unit)
    (hm : Int.tdiv unit 1000 = 0) (hne : limit ≠ 0) (hge : ¬ limit < unit) :
    LimitChange.increaseBody limit unit = .panic := by
  have hwm : wrap64 (Int.tdiv unit 1000) = 0 := by
    rw [wrap64_eq_self (tdiv_thousand_bounds unit hu), hm]
  simp only [LimitChange.increaseBody, if_neg hne, if_neg hge,
    goDiv_of_ne _ (show (2 : Int) ≠ 0 by decide),
    goDiv_of_ne _ (show (1000 : Int) ≠ 0 by decide), hwm, goMod, if_true]

/-- The 1.5x branch with `Unit/1000 ≠ 0` returns, whatever the limit. -/
theorem increase_third_branch_done (limit unit : Int) (hu : IsInt64 unit)
    (hm : Int.tdiv unit 1000 ≠ 0) (hne : limit ≠ 0) (hge : ¬ limit < unit) :
    ∃ d, LimitChange.increaseBody limit unit = .done (d, none) := by
  have hwm : wrap64 (Int.tdiv unit 1000) ≠ 0 := by
    rw [wrap64_eq_self (tdiv_thousand_bounds unit hu)]; exact hm
  simp only [LimitChange.increaseBody, if_neg hne, if_neg hge,
    goDiv_of_ne _ (show (2 : Int) ≠ 0 by decide),
    goDiv_of_ne _ (show (1000 : Int) ≠ 0 by decide), goMod_of_ne _ hwm]
  exact ⟨_, rfl⟩

theorem increase_early_branches_done (limit unit : Int) (h : limit = 0 ∨ limit < unit) :
    ∃ d, LimitChange.increaseBody limit unit = .done (d, none) := by
  unfold LimitChange.increaseBody
  by_cases hz : limit = 0
  · rw [if_pos hz]; exact ⟨_, rfl⟩
  · have hlt : limit < unit := h.resolve_left hz
    rw [if_neg hz, if_pos hlt]; exact ⟨_, rfl⟩

/-- C11: with a limiter as context, `LimitChange.Increase` never divides by zero
when `Unit/1000 ≠ 0` (it returns for every limit); when `Unit/1000 = 0`, that
is `|Unit| < 1000`, it divides by zero exactly when `limit ≠ 0` and
`limit ≥ Unit`, and returns when `limit = 0` or `limit < Unit`. -/
theorem C11_Increase_division (r : RateLimiter) (rest : List StateArg) (limit : Int)
    (hu : IsInt64 r.Unit) :
    (Int.tdiv r.Unit 1000 = 0 ↔ |r.Unit| < 1000)
    ∧ (Int.tdiv r.Unit 1000 ≠ 0 →
        ∃ d, LimitChange.Increase limit (.limiter r :: rest) = .done (d, none))
    ∧ (Int.tdiv r.Unit 1000 = 0 →
        (LimitChange.Increase limit (.limiter r :: rest) = .panic
            ↔ limit ≠ 0 ∧ limit ≥ r.Unit)
        ∧ (limit = 0 ∨ limit < r.Unit →
            ∃ d, LimitChange.Increase limit (.limiter r :: rest) = .done (d, none))) := by
  refine ⟨tdiv_thousand_eq_zero_iff _, ?_, ?_⟩
  · intro hm
    show ∃ d, LimitChange.increaseBody limit r.Unit = _
    by_cases h : limit = 0 ∨ limit < r.Unit
    · exact increase_early_branches_done _ _ h
    · push_neg at h
      exact increase_third_branch_done _ _ hu hm h.1 (by omega)
  · intro hm
    refine ⟨⟨?_, ?_⟩, increase_early_branches_done _ _⟩
    · intro hp
      by_contra hcon
      have h : limit = 0 ∨ limit < r.Unit := by
        by_cases hz : limit = 0
        · exact Or.inl hz
        · right
          by_contra hlt
          exact hcon ⟨hz, by omega⟩
      obtain ⟨d, hd⟩ := increase_early_branches_done limit r.Unit h
      have hp2 : LimitChange.increaseBody limit r.Unit = .panic := hp
      rw [hd] at hp2
      exact Run.noConfusion hp2
    · rintro ⟨hne, hge⟩
      exact increase_third_branch_panic _ _ hu hm hne (by omega)

/-- C11 at a unit of 500ns, where `Unit/1000 = 0`: `Increase(500ns)` divides by
zero, `Increase(100ns)` and `Increase(0)` return; and at the unit of the tests
`Increase(5s)` returns. -/
theorem C11_Increase_division_witness :
    IsInt64 (NewRateLimiter 0 1 10 500 500).Unit
    ∧ Int.tdiv (NewRateLimiter 0 1 10 500 500).Unit 1000 = 0
    ∧ LimitChange.Increase 500 [.limiter (NewRateLimiter 0 1 10 500 500)] = .panic
    ∧ LimitChange.Increase 100 [.limiter (NewRateLimiter 0 1 10 500 500)]
        = .done (200, none)
    ∧ LimitChange.Increase 0 [.limiter (NewRateLimiter 0 1 10 500 500)]
        = .done (500, none)
    ∧ ∃ d, LimitChange.Increase 5000000000 [.limiter (testLimiter 5000000000)]
        = .done (d, none) :=
  ⟨by decide, by decide,
    ((C11_Increase_division (NewRateLimiter 0 1 10 500 500) [] 500 (by decide)).2.2
      (by decide)).1.mpr ⟨by decide, by decide⟩,
    by decide, by decide,
    (C11_Increase_division (testLimiter 5000000000) [] 5000000000 (by decide)).2.1
      (by decide)⟩

/-! ## Growth under `LimitChange.Increase` -/

theorem increase_gt (r : RateLimiter) (rest : List StateArg) (limit : Int)
    (hu : IsInt64 r.Unit) (hge : 1000 ≤ r.Unit) (h0 : 0 ≤ limit)
    (h3 : 3 * limit ≤ maxInt64) :
    ∃ d, LimitChange.Increase limit (.limiter r :: rest) = .done (d, none) ∧ limit < d := by
  show ∃ d, LimitChange.increaseBody limit r.Unit = _ ∧ _
  by_cases hz : limit = 0
  · subst hz
    exact ⟨_, increase_zero _ hu, by omega⟩
  · have hpos : 0 < limit := by omega
    by_cases hlt : limit < r.Unit
    · refine ⟨_, increase_sub_unit _ _ hpos h3 hlt, ?_⟩
      exact lt_min (by omega) hlt
    · have hmeq : Int.tdiv r.Unit 1000 = r.Unit / 1000 :=
        tdiv_of_nonneg (by omega) (by decide)
      have hm : Int.tdiv r.Unit 1000 ≠ 0 := by rw [hmeq]; omega
      refine ⟨_, increase_third_branch _ _ hu hm hpos h3 hlt, ?_⟩
      have hmod := Int.emod_lt_of_pos (3 * limit / 2) (show 0 < Int.tdiv r.Unit 1000 by
        rw [hmeq]; omega)
      rw [hmeq] at hmod ⊢
      omega

/-- C12: for `Unit ≥ 1000` and `limit ≥ 0` with `3*limit` inside `int64`,
`LimitChange.Increase(limit)` returns a value strictly above `limit`; hence any
run of repeated increases that starts at a limit `≥ 0` and stays inside that
range is strictly increasing. -/
theorem C12_Increase_strictly_grows (r : RateLimiter) (rest : List StateArg)
    (hu : IsInt64 r.Unit) (hge : 1000 ≤ r.Unit) :
    (∀ limit : Int, 0 ≤ limit → 3 * limit ≤ maxInt64 →
      ∃ d, LimitChange.Increase limit (.limiter r :: rest) = .done (d, none) ∧ limit < d)
    ∧ ∀ (s : Nat → Int) (n : Nat), 0 ≤ s 0 →
        (∀ i, i < n → 3 * s i ≤ maxInt64
          ∧ LimitChange.Increase (s i) (.limiter r :: rest) = .done (s (i + 1), none)) →
        ∀ i, i < n → 0 ≤ s i ∧ s i < s (i + 1) := by
  refine ⟨fun limit h0 h3 => increase_gt r rest limit hu hge h0 h3, ?_⟩
  intro s n hs0 hstep i
  induction i with
  | zero =>
    intro hi
    obtain ⟨h3, hinc⟩ := hstep 0 hi
    obtain ⟨d, hd, hlt⟩ := increase_gt r rest (s 0) hu hge hs0 h3
    rw [hinc] at hd
    injection hd with hd
    injection hd with hd _
    exact ⟨hs0, by omega⟩
  | succ i ih =>
    intro hi
    have hprev := ih (by omega)
    have hnn : 0 ≤ s (i + 1) := by omega
    obtain ⟨h3, hinc⟩ := hstep (i + 1) hi
    obtain ⟨d, hd, hlt⟩ := increase_gt r rest (s (i + 1)) hu hge hnn h3
    rw [hinc] at hd
    injection hd with hd
    injection hd with hd _
    exact ⟨hnn, by omega⟩

/-- C12 at the unit of the tests: `Increase` takes 0 to 1s, 1s to 1.5s, 800ms to
1s and 5s to 7.5s, each above its argument. -/
theorem C12_Increase_strictly_grows_witness :
    IsInt64 (testLimiter 0).Unit ∧ 1000 ≤ (testLimiter 0).Unit
    ∧ (∃ d, LimitChange.Increase 5000000000 [.limiter (testLimiter 0)] = .done (d, none)
        ∧ 5000000000 < d)
    ∧ LimitChange.Increase 5000000000 [.limiter (testLimiter 0)] = .done (7500000000, none)
    ∧ LimitChange.Increase 0 [.limiter (testLimiter 0)] = .done (1000000000, none)
    ∧ LimitChange.Increase 1000000000 [.limiter (testLimiter 0)] = .done (1500000000, none)
    ∧ LimitChange.Increase 800000000 [.limiter (testLimiter 0)] = .done (1000000000, none) :=
  ⟨by decide, by decide,
    (C12_Increase_strictly_grows (testLimiter 0) [] (by decide) (by decide)).1 5000000000
      (by decide) (by decide),
    by decide, by decide, by decide, by decide⟩

/-! ## A cost above `MaxTokens` -/

/-- The refill in mathematical arithmetic, when its sum fits in an `int`. -/
theorem updateTokens_fits (r : RateLimiter) (now : Int) (hw : r.WaitLimit ≠ 0)
    (hnow : IsClock now) (hlast : IsClock r.lastLocked)
    (hfit : max ⌊((now - r.lastLocked : Int) : ℚ) / (r.WaitLimit : ℚ)⌋ 0 + r.Tokens
      ≤ maxInt64)
    (htok : minInt64 ≤ r.Tokens) :
    r.updateTokens now = .done { r with
      Tokens := min (max ⌊((now - r.lastLocked : Int) : ℚ) / (r.WaitLimit : ℚ)⌋ 0
        + r.Tokens) r.MaxTokens } := by
  have h0 : 0 ≤ max ⌊((now - r.lastLocked : Int) : ℚ) / (r.WaitLimit : ℚ)⌋ 0 :=
    le_max_right _ _
  rw [updateTokens_eq r now hw hnow hlast, wrap64_eq_self]
  unfold IsInt64
  unfold maxInt64 at hfit
  unfold minInt64 at htok
  omega

/-- C14 (amended): with `WaitLimit ≠ 0`, `MaxTokens ≥ 0`, `Tokens ≥ MaxTokens`
and a cost `> MaxTokens`, `≥ 1`, a bookkeeping pass of `AcquireWithCost(cost)`
whose refill sum fits in an `int` takes the success branch and leaves
`Tokens = MaxTokens - cost < 0`. -/
theorem C14_cost_above_maxTokens (r : RateLimiter) (cost t1 t2 : Int)
    (hw : r.WaitLimit ≠ 0) (hM : 0 ≤ r.MaxTokens) (hT : r.MaxTokens ≤ r.Tokens)
    (hc : r.MaxTokens < cost) (hc1 : 1 ≤ cost) (hcost : IsInt64 cost)
    (h1 : IsClock t1) (h2 : IsClock t2)
    (hfit : max ⌊((t2 - t1 : Int) : ℚ) / (r.WaitLimit : ℚ)⌋ 0 + r.Tokens ≤ maxInt64) :
    r.Tokens ≥ min (max cost 1) r.MaxTokens
    ∧ ∃ r3, (r.acquirePass cost t1 t2 = .acquired r3 ∨ r.acquirePass cost t1 t2 = .blocked r3)
        ∧ r3.Tokens = r.MaxTokens - cost ∧ r3.Tokens < 0 := by
  have hchk : r.Tokens ≥ min (max cost 1) r.MaxTokens :=
    le_trans (min_le_right _ _) hT
  refine ⟨hchk, ?_⟩
  obtain ⟨r2, hu, hp, _⟩ := acquirePass_success r cost t1 t2 hw hchk
  have h0 : 0 ≤ max ⌊((t2 - t1 : Int) : ℚ) / (r.WaitLimit : ℚ)⌋ 0 := le_max_right _ _
  have hu2 := updateTokens_fits { r with lastLocked := t1 } t2 hw h2 h1 hfit
    (by unfold minInt64; show -9223372036854775808 ≤ r.Tokens; omega)
  rw [hu] at hu2
  injection hu2 with hu2
  have ht : r2.Tokens = r.MaxTokens := by
    rw [hu2]
    show min (_ + r.Tokens) r.MaxTokens = r.MaxTokens
    exact min_eq_right (by omega)
  unfold maxInt64 at hfit
  unfold IsInt64 at hcost
  have hded : wrap64 (r2.Tokens - cost) = r.MaxTokens - cost := by
    rw [ht]
    apply wrap64_eq_self
    unfold IsInt64
    omega
  by_cases hlk : r.locked = true
  · rw [if_pos hlk] at hp
    exact ⟨_, Or.inr hp, hded, by show wrap64 (r2.Tokens - cost) < 0; rw [hded]; omega⟩
  · rw [if_neg hlk] at hp
    exact ⟨_, Or.inl hp, hded, by show wrap64 (r2.Tokens - cost) < 0; rw [hded]; omega⟩

/-- C14 at the limiter of `TestRateLimiting` with a full bucket of five and
cost `7`: the pass succeeds and leaves `-2` tokens. -/
theorem C14_cost_above_maxTokens_witness :
    (NewRateLimiter 0 5 5 100000000 1000000000).acquirePass 7 50 60
        = .acquired { NewRateLimiter 50 (-2) 5 100000000 1000000000 with locked := true }
    ∧ ∃ r3, ((NewRateLimiter 0 5 5 100000000 1000000000).acquirePass 7 50 60 = .acquired r3
          ∨ (NewRateLimiter 0 5 5 100000000 1000000000).acquirePass 7 50 60 = .blocked r3)
        ∧ r3.Tokens = (NewRateLimiter 0 5 5 100000000 1000000000).MaxTokens - 7
        ∧ r3.Tokens < 0 :=
  ⟨by decide,
    (C14_cost_above_maxTokens (NewRateLimiter 0 5 5 100000000 1000000000) 7 50 60
      (by decide) (by decide) (by decide) (by decide) (by decide) (by decide) (by decide)
      (by decide)
      (by
        show max ⌊((60 - 50 : Int) : ℚ) / ((100000000 : Int) : ℚ)⌋ 0 + 5 ≤ maxInt64
        rw [← max_tdiv_eq_max_floor _ _ (by decide)]
        decide)).2⟩

/-- C14 as stated fails when the refill sum overflows: with `2^63 - 1` tokens
over a capacity of five, wait limit 1ns, cost `6` and 1ns between the two
readings, the pass succeeds and leaves `2^63 - 6` tokens, not
`MaxTokens - cost = -1`. -/
theorem C14_cost_above_maxTokens_counterexample :
    overfull.WaitLimit ≠ 0 ∧ 0 ≤ overfull.MaxTokens ∧ overfull.Tokens ≥ overfull.MaxTokens
    ∧ (6 : Int) > overfull.MaxTokens ∧ (6 : Int) ≥ 1
    ∧ overfull.acquirePass 6 0 1
        = .acquired { overfull with Tokens := 9223372036854775802, locked := true }
    ∧ overfull.MaxTokens - 6 = -1 := by
  refine ⟨by decide, by decide, by decide, by decide, by decide, by decide, by decide⟩

/-! ## Refilling twice at one clock reading -/

/-- C15 (amended): with `WaitLimit > 0`, `Tokens ≤ MaxTokens` and
`a = ⌊(now - lastLocked)/WaitLimit⌋ ≥ 0`, when both refill sums fit in an `int`,
running `updateTokens` twice at the reading `now` (as two consecutive failed
passes do) leaves `Tokens = min(Tokens + 2a, MaxTokens)`; one refill gives
`min(Tokens + a, MaxTokens)`, which is strictly less whenever `a ≥ 1` and
`Tokens + a < MaxTokens`; the result never exceeds `MaxTokens`, and
`lastLocked` does not move. -/
theorem C15_refill_twice (r : RateLimiter) (now a : Int) (hw : 0 < r.WaitLimit)
    (hTM : r.Tokens ≤ r.MaxTokens) (hnow : IsClock now) (hlast : IsClock r.lastLocked)
    (hadef : a = ⌊((now - r.lastLocked : Int) : ℚ) / (r.WaitLimit : ℚ)⌋) (ha : 0 ≤ a)
    (htok : minInt64 ≤ r.Tokens) (hfit1 : r.Tokens + a ≤ maxInt64)
    (hfit2 : min (r.Tokens + a) r.MaxTokens + a ≤ maxInt64) :
    ∃ r1 r2, r.updateTokens now = .done r1 ∧ r1.updateTokens now = .done r2
      ∧ r1.Tokens = min (r.Tokens + a) r.MaxTokens
      ∧ r2.Tokens = min (r.Tokens + 2 * a) r.MaxTokens
      ∧ (1 ≤ a → r.Tokens + a < r.MaxTokens → r1.Tokens < r2.Tokens)
      ∧ r2.Tokens ≤ r.MaxTokens
      ∧ r2.lastLocked = r.lastLocked
      ∧ ∀ cost t t2 : Int, ¬ r.Tokens ≥ min (max cost 1) r.MaxTokens →
          ¬ r1.Tokens ≥ min (max cost 1) r.MaxTokens →
          ∃ s s2, r.acquirePass cost now t = .retry r1 s
            ∧ r1.acquirePass cost now t2 = .retry r2 s2 := by
  have hw0 : r.WaitLimit ≠ 0 := by omega
  have hmax : max ⌊((now - r.lastLocked : Int) : ℚ) / (r.WaitLimit : ℚ)⌋ 0 = a := by
    rw [← hadef]; exact max_eq_left ha
  have hu1 := updateTokens_fits r now hw0 hnow hlast (by rw [hmax]; omega) htok
  rw [hmax] at hu1
  have hu2 := updateTokens_fits
    { r with Tokens := min (a + r.Tokens) r.MaxTokens } now hw0 hnow hlast
    (by
      show max ⌊((now - r.lastLocked : Int) : ℚ) / (r.WaitLimit : ℚ)⌋ 0
        + min (a + r.Tokens) r.MaxTokens ≤ maxInt64
      rw [hmax, Int.add_comm a r.Tokens]
      omega)
    (by
      show minInt64 ≤ min (a + r.Tokens) r.MaxTokens
      exact le_min (by omega) (by omega))
  have hu2b : RateLimiter.updateTokens { r with Tokens := min (a + r.Tokens) r.MaxTokens } now
      = .done { r with
          Tokens := min (a + min (a + r.Tokens) r.MaxTokens) r.MaxTokens } := by
    rw [hu2]
    show Run.done { r with
      Tokens := min (max ⌊((now - r.lastLocked : Int) : ℚ) / (r.WaitLimit : ℚ)⌋ 0
        + min (a + r.Tokens) r.MaxTokens) r.MaxTokens } = _
    rw [hmax]
  refine ⟨_, _, hu1, hu2b, ?_, ?_, ?_, ?_, rfl, ?_⟩
  · show min (a + r.Tokens) r.MaxTokens = _
    rw [Int.add_comm]
  · show min (a + min (a + r.Tokens) r.MaxTokens) r.MaxTokens = _
    omega
  · intro h1 hlt
    show min (a + r.Tokens) r.MaxTokens
      < min (a + min (a + r.Tokens) r.MaxTokens) r.MaxTokens
    omega
  · show min (a + min (a + r.Tokens) r.MaxTokens) r.MaxTokens ≤ r.MaxTokens
    exact min_le_right _ _
  · intro cost t t2 hf1 hf2
    obtain ⟨q1, hq1, hp1, _⟩ := acquirePass_failure r cost now t hw0 hf1
    rw [hu1] at hq1
    injection hq1 with hq1
    rw [← hq1] at hp1
    obtain ⟨q2, hq2, hp2, _⟩ := acquirePass_failure
      { r with Tokens := min (a + r.Tokens) r.MaxTokens } cost now t2 hw0 hf2
    rw [hu2b] at hq2
    injection hq2 with hq2
    rw [← hq2] at hp2
    exact ⟨_, _, hp1, hp2⟩

/-- C15 at the limiter of `TestRateLimiting` with no token of five, read 250ms
after the last lock: one refill gives two tokens, a second one four. -/
theorem C15_refill_twice_witness :
    (NewRateLimiter 0 0 5 100000000 1000000000).updateTokens 250000000
        = .done (NewRateLimiter 0 2 5 100000000 1000000000)
    ∧ (NewRateLimiter 0 2 5 100000000 1000000000).updateTokens 250000000
        = .done (NewRateLimiter 0 4 5 100000000 1000000000)
    ∧ ∃ r1 r2, (NewRateLimiter 0 0 5 100000000 1000000000).updateTokens 250000000 = .done r1
        ∧ r1.updateTokens 250000000 = .done r2
        ∧ r1.Tokens = min (0 + 2) 5 ∧ r2.Tokens = min (0 + 2 * 2) 5 :=
  ⟨by decide, by decide, by
    obtain ⟨r1, r2, h1, h2, h3, h4, _⟩ :=
      C15_refill_twice (NewRateLimiter 0 0 5 100000000 1000000000) 250000000 2
        (by decide) (by decide) (by decide) (by decide)
        (by
          show (2 : Int) = ⌊((250000000 - 0 : Int) : ℚ) / ((100000000 : Int) : ℚ)⌋
          norm_num [Int.floor_eq_iff])
        (by decide) (by decide) (by decide) (by decide)
    exact ⟨r1, r2, h1, h2, h3, h4⟩⟩

/-- C15 as stated fails when the refill sum overflows: on a full bucket of
`2^63 - 1` tokens with `a = 1`, two refills leave `-2^63 + 1`, not
`min(Tokens + 2, MaxTokens) = 2^63 - 1`. -/
theorem C15_refill_twice_counterexample :
    0 < fullBucket.WaitLimit ∧ fullBucket.Tokens ≤ fullBucket.MaxTokens
    ∧ ⌊((1 - fullBucket.lastLocked : Int) : ℚ) / (fullBucket.WaitLimit : ℚ)⌋ = 1
    ∧ fullBucket.updateTokens 1 = .done { fullBucket with Tokens := -9223372036854775808 }
    ∧ RateLimiter.updateTokens { fullBucket with Tokens := -9223372036854775808 } 1
        = .done { fullBucket with Tokens := -9223372036854775807 }
    ∧ min (fullBucket.Tokens + 2 * 1) fullBucket.MaxTokens = 9223372036854775807 := by
  refine ⟨by decide, by decide, ?_, by decide, by decide, by decide⟩
  show ⌊((1 - 0 : Int) : ℚ) / ((1 : Int) : ℚ)⌋ = 1
  norm_num

/-! ## The default entry points `Increase` and `Decrease` -/

theorem increase_limiter_error_none (r : RateLimiter) (rest : List StateArg)
    (limit d : Int) (e : Option String)
    (h : LimitChange.Increase limit (.limiter r :: rest) = .done (d, e)) : e = none := by
  simp only [LimitChange.Increase, LimitChange.increaseBody] at h
  split_ifs at h
  · injection h with h; injection h with _ h; exact h.symm
  · injection h with h; injection h with _ h; exact h.symm
  · injection h with h; injection h with _ h; exact h.symm
  · split at h
    · exact Run.noConfusion h
    · split at h
      · exact Run.noConfusion h
      · split at h
        · exact Run.noConfusion h
        · injection h with h; injection h with _ h; exact h.symm

theorem decrease_limiter_error_none (fuel : Nat) (r : RateLimiter) (rest : List StateArg)
    (limit d : Int) (e : Option String)
    (h : LimitChange.Decrease fuel limit (.limiter r :: rest) = .done (d, e)) : e = none := by
  simp only [LimitChange.Decrease, LimitChange.decreaseBody] at h
  split_ifs at h
  · injection h with h; injection h with _ h; exact h.symm
  · injection h with h; injection h with _ h; exact h.symm
  · injection h with h; injection h with _ h; exact h.symm
  · split at h
    · exact Run.noConfusion h
    · split at h
      · exact Run.noConfusion h
      · split_ifs at h
        · injection h with h; injection h with _ h; exact h.symm
        · injection h with h; injection h with _ h; exact h.symm

theorem changeLimit_done_iff (r r2 : RateLimiter) (res : ChangeResult) :
    (match res with
      | .done (limit, none) => Run.done { r with WaitLimit := limit }
      | .done (_, some _) => Run.done r
      | .panic => Run.panic
      | .fuelOut => Run.fuelOut) = Run.done r2
    ↔ (∃ d, res = .done (d, none) ∧ r2 = { r with WaitLimit := d })
      ∨ (∃ d msg, res = .done (d, some msg) ∧ r2 = r) := by
  rcases res with ⟨limit, _ | msg⟩ | _ | _
  · constructor
    · intro h
      injection h with h
      exact Or.inl ⟨limit, rfl, h.symm⟩
    · rintro (⟨d, hd, rfl⟩ | ⟨d, msg, hd, _⟩)
      · injection hd with hd
        injection hd with hd _
        subst hd
        rfl
      · injection hd with hd
        injection hd with _ hd
        exact Option.noConfusion hd
  · constructor
    · intro h
      injection h with h
      exact Or.inr ⟨limit, msg, rfl, h.symm⟩
    · rintro (⟨d, hd, _⟩ | ⟨d, msg2, _, rfl⟩)
      · injection hd with hd
        injection hd with _ hd
        exact Option.noConfusion hd
      · rfl
  · constructor
    · intro h; exact Run.noConfusion h
    · rintro (⟨d, hd, _⟩ | ⟨d, msg, hd, _⟩) <;> exact Run.noConfusion hd
  · constructor
    · intro h; exact Run.noConfusion h
    · rintro (⟨d, hd, _⟩ | ⟨d, msg, hd, _⟩) <;> exact Run.noConfusion hd

/-- C16: `r.Increase()` and `r.Decrease()` hand the limiter itself to the
built-in policy, so the policy never reports the missing-context error: each
returns exactly when `LimitChange.Increase(WaitLimit)` (`Decrease`) with
`unit = r.Unit` returns, and then the limiter is unchanged except that
`WaitLimit` is the returned duration. -/
theorem C16_default_entry_points (fuel : Nat) (r : RateLimiter) :
    (∀ r2, r.Increase fuel = .done r2 ↔
        ∃ d, LimitChange.Increase r.WaitLimit [.limiter r] = .done (d, none)
          ∧ r2 = { r with WaitLimit := d })
    ∧ (∀ r2, r.Decrease fuel = .done r2 ↔
        ∃ d, LimitChange.Decrease fuel r.WaitLimit [.limiter r] = .done (d, none)
          ∧ r2 = { r with WaitLimit := d })
    ∧ (∀ d e, LimitChange.Increase r.WaitLimit [.limiter r] = .done (d, e) → e = none)
    ∧ (∀ d e, LimitChange.Decrease fuel r.WaitLimit [.limiter r] = .done (d, e) → e = none)
    ∧ (∀ r2, r.Increase fuel = .done r2 ∨ r.Decrease fuel = .done r2 →
        r2.Tokens = r.Tokens ∧ r2.MaxTokens = r.MaxTokens ∧ r2.Unit = r.Unit
          ∧ r2.lastLocked = r.lastLocked) := by
  have hi : ∀ r2, r.Increase fuel = .done r2 ↔
      ∃ d, LimitChange.Increase r.WaitLimit [.limiter r] = .done (d, none)
        ∧ r2 = { r with WaitLimit := d } := by
    intro r2
    refine (changeLimit_done_iff r r2 (LimitChange.Increase r.WaitLimit [.limiter r])).trans ?_
    constructor
    · rintro (h | ⟨d, msg, h, _⟩)
      · exact h
      · exact Option.noConfusion (increase_limiter_error_none r [] _ d _ h)
    · exact Or.inl
  have hd : ∀ r2, r.Decrease fuel = .done r2 ↔
      ∃ d, LimitChange.Decrease fuel r.WaitLimit [.limiter r] = .done (d, none)
        ∧ r2 = { r with WaitLimit := d } := by
    intro r2
    refine (changeLimit_done_iff r r2
      (LimitChange.Decrease fuel r.WaitLimit [.limiter r])).trans ?_
    constructor
    · rintro (h | ⟨d, msg, h, _⟩)
      · exact h
      · exact Option.noConfusion (decrease_limiter_error_none fuel r [] _ d _ h)
    · exact Or.inl
  refine ⟨hi, hd, fun d e h => increase_limiter_error_none r [] _ d e h,
    fun d e h => decrease_limiter_error_none fuel r [] _ d e h, ?_⟩
  rintro r2 (h | h)
  · obtain ⟨d, _, rfl⟩ := (hi r2).mp h
    exact ⟨rfl, rfl, rfl, rfl⟩
  · obtain ⟨d, _, rfl⟩ := (hd r2).mp h
    exact ⟨rfl, rfl, rfl, rfl⟩

/-- C16 at the rows `1s → 1.5s` of `increaseTests` and `1s → 900ms` of
`decreaseTests`, run through `r.Increase()` and `r.Decrease()`. -/
theorem C16_default_entry_points_witness :
    (testLimiter 1000000000).Increase 1
        = .done { testLimiter 1000000000 with WaitLimit := 1500000000 }
    ∧ (testLimiter 1000000000).Decrease 1
        = .done { testLimiter 1000000000 with WaitLimit := 900000000 } :=
  ⟨((C16_default_entry_points 1 (testLimiter 1000000000)).1 _).mpr
      ⟨1500000000, by decide, rfl⟩,
   ((C16_default_entry_points 1 (testLimiter 1000000000)).2.1 _).mpr
      ⟨900000000, by decide, rfl⟩⟩

/-! ## The lower bound `0 ≤ Tokens` -/

theorem updateTokens_nonneg (r : RateLimiter) (now : Int) (hw : r.WaitLimit ≠ 0)
    (hM : 0 ≤ r.MaxTokens) (hT : 0 ≤ r.Tokens) (hnow : IsClock now)
    (hlast : IsClock r.lastLocked)
    (hfit : max ⌊((now - r.lastLocked : Int) : ℚ) / (r.WaitLimit : ℚ)⌋ 0 + r.Tokens
      ≤ maxInt64) :
    ∃ r2, r.updateTokens now = .done r2 ∧ 0 ≤ r2.Tokens
      ∧ min r.Tokens r.MaxTokens ≤ r2.Tokens := by
  have h0 : 0 ≤ max ⌊((now - r.lastLocked : Int) : ℚ) / (r.WaitLimit : ℚ)⌋ 0 :=
    le_max_right _ _
  have hu := updateTokens_fits r now hw hnow hlast hfit (by unfold minInt64; omega)
  refine ⟨_, hu, ?_, ?_⟩
  · show 0 ≤ min _ r.MaxTokens
    exact le_min (by omega) hM
  · show min r.Tokens r.MaxTokens ≤ min _ r.MaxTokens
    exact le_min (le_trans (min_le_left _ _) (by omega)) (min_le_right _ _)

/-- C17 (amended): with `MaxTokens ≥ 0`, `Tokens ≥ 0` and `WaitLimit ≠ 0`,
`Tokens ≥ 0` still holds after `updateTokens`, after `AddTokens(n)` with
`n ≥ 0`, and after a bookkeeping pass of `AcquireWithCost(cost)` with
`0 ≤ cost ≤ MaxTokens` in either branch, provided the sum each of them forms
(refill sum, `Tokens + n`) fits in an `int`. -/
theorem C17_tokens_nonneg (r : RateLimiter) (hw : r.WaitLimit ≠ 0) (hM : 0 ≤ r.MaxTokens)
    (hT : 0 ≤ r.Tokens) (hlast : IsClock r.lastLocked) :
    (∀ now : Int, IsClock now →
        max ⌊((now - r.lastLocked : Int) : ℚ) / (r.WaitLimit : ℚ)⌋ 0 + r.Tokens ≤ maxInt64 →
        ∃ r2, r.updateTokens now = .done r2 ∧ 0 ≤ r2.Tokens)
    ∧ (∀ n : Int, 0 ≤ n → r.Tokens + n ≤ maxInt64 → 0 ≤ (r.AddTokens n).Tokens)
    ∧ (∀ cost t1 t2 : Int, 0 ≤ cost → cost ≤ r.MaxTokens → IsClock t1 → IsClock t2 →
        max ⌊((t2 - t1 : Int) : ℚ) / (r.WaitLimit : ℚ)⌋ 0 + r.Tokens ≤ maxInt64 →
        max ⌊((t1 - r.lastLocked : Int) : ℚ) / (r.WaitLimit : ℚ)⌋ 0 + r.Tokens ≤ maxInt64 →
        ∃ r3, (r.acquirePass cost t1 t2 = .acquired r3 ∨ r.acquirePass cost t1 t2 = .blocked r3
            ∨ ∃ sleep, r.acquirePass cost t1 t2 = .retry r3 sleep)
          ∧ 0 ≤ r3.Tokens) := by
  refine ⟨?_, ?_, ?_⟩
  · intro now hnow hfit
    obtain ⟨r2, h, h0, _⟩ := updateTokens_nonneg r now hw hM hT hnow hlast hfit
    exact ⟨r2, h, h0⟩
  · intro n hn hfit
    have hwr : wrap64 (r.Tokens + n) = r.Tokens + n := by
      apply wrap64_eq_self
      unfold IsInt64
      unfold maxInt64 at hfit
      omega
    show 0 ≤ Lib.min r.MaxTokens (wrap64 (r.Tokens + n))
    rw [libMin_eq, hwr]
    exact le_min hM (by omega)
  · intro cost t1 t2 hc0 hcM h1 h2 hfit1 hfit2
    by_cases hchk : r.Tokens ≥ min (max cost 1) r.MaxTokens
    · obtain ⟨r2, hu, hp, _⟩ := acquirePass_success r cost t1 t2 hw hchk
      have hge : cost ≤ r2.Tokens ∧ r2.Tokens ≤ maxInt64 := by
        have hb := updateTokens_bounds _ _ _ hu
        refine ⟨?_, hb.2.1⟩
        obtain ⟨q, hq, _, hle⟩ :=
          updateTokens_nonneg { r with lastLocked := t1 } t2 hw hM hT h2 h1 hfit1
        rw [hu] at hq
        injection hq with hq
        subst hq
        have hle2 : min r.Tokens r.MaxTokens ≤ r2.Tokens := hle
        omega
      have hded : wrap64 (r2.Tokens - cost) = r2.Tokens - cost := by
        apply wrap64_eq_self
        unfold IsInt64
        have := hge.2
        unfold maxInt64 at this
        omega
      by_cases hlk : r.locked = true
      · rw [if_pos hlk] at hp
        exact ⟨_, Or.inr (Or.inl hp), by show 0 ≤ wrap64 (r2.Tokens - cost); rw [hded]; omega⟩
      · rw [if_neg hlk] at hp
        exact ⟨_, Or.inl hp, by show 0 ≤ wrap64 (r2.Tokens - cost); rw [hded]; omega⟩
    · obtain ⟨r2, hu, hp, _⟩ := acquirePass_failure r cost t1 t2 hw hchk
      obtain ⟨q, hq, h0, _⟩ := updateTokens_nonneg r t1 hw hM hT h1 hlast hfit2
      rw [hu] at hq
      injection hq with hq
      subst hq
      exact ⟨r2, Or.inr (Or.inr ⟨_, hp⟩), h0⟩

/-- C17 at the limiter of `TestRateLimiting` (three tokens of five): adding four
tokens leaves five. -/
theorem C17_tokens_nonneg_witness :
    ((NewRateLimiter 0 3 5 100000000 1000000000).AddTokens 4).Tokens = 5
    ∧ 0 ≤ ((NewRateLimiter 0 3 5 100000000 1000000000).AddTokens 4).Tokens :=
  ⟨by decide,
    (C17_tokens_nonneg (NewRateLimiter 0 3 5 100000000 1000000000)
      (by decide) (by decide) (by decide) (by decide)).2.1 4 (by decide) (by decide)⟩

/-- C17 as stated fails when a sum overflows: on a bucket of `2^63 - 1` tokens,
`MaxTokens ≥ 0`, `AddTokens(1)` and a refill one wait limit after the last lock
both leave `-2^63` tokens. -/
theorem C17_tokens_nonneg_counterexample :
    fullBucket.WaitLimit ≠ 0 ∧ 0 ≤ fullBucket.MaxTokens ∧ 0 ≤ fullBucket.Tokens
    ∧ (0 : Int) ≤ 1
    ∧ (fullBucket.AddTokens 1).Tokens = -9223372036854775808
    ∧ ¬ 0 ≤ (fullBucket.AddTokens 1).Tokens
    ∧ fullBucket.updateTokens 1 = .done { fullBucket with Tokens := -9223372036854775808 } := by
  refine ⟨by decide, by decide, by decide, by decide, by decide, by decide, by decide⟩

/-! ## Bounds on `LimitChange.Decrease` -/

/-- Below one unit, `Decrease` subtracts the first candidate under `limit`. -/
theorem decrease_fraction (r : RateLimiter) (rest : List StateArg) (limit : Int)
    (hu : IsInt64 r.Unit) (hpos : 0 < r.Unit) (hl0 : 0 < limit) (hle : limit ≤ r.Unit) :
    ∃ k : Nat, 1 ≤ k
      ∧ 0 ≤ (fun x : Int => Int.tdiv x 10)^[k] r.Unit
      ∧ (fun x : Int => Int.tdiv x 10)^[k] r.Unit < limit
      ∧ (∀ j : Nat, 1 ≤ j → (fun x : Int => Int.tdiv x 10)^[j] r.Unit < limit →
          (fun x : Int => Int.tdiv x 10)^[j] r.Unit ≤ (fun x : Int => Int.tdiv x 10)^[k] r.Unit)
      ∧ ∀ fuel : Nat, k ≤ fuel →
          LimitChange.Decrease fuel limit (.limiter r :: rest)
            = .done (max (limit - (fun x : Int => Int.tdiv x 10)^[k] r.Unit)
                ((fun x : Int => Int.tdiv x 10)^[k] r.Unit), none) := by
  have hu2 : r.Unit ≤ maxInt64 := hu.2
  have hex : ∃ j, (fun x : Int => Int.tdiv x 10)^[j + 1] r.Unit < limit := by
    obtain ⟨j, hj⟩ := tenths_reach_zero r.Unit.toNat r.Unit hpos.le le_rfl
    refine ⟨j, ?_⟩
    have := tenths_antitone r.Unit hpos.le (Nat.le_add_right j 1)
    omega
  classical
  let k0 := Nat.find hex
  have hk0 : (fun x : Int => Int.tdiv x 10)^[k0 + 1] r.Unit < limit := Nat.find_spec hex
  have hmin : ∀ i, i < k0 → limit ≤ (fun x : Int => Int.tdiv x 10)^[i + 1] r.Unit := by
    intro i hi
    have := Nat.find_min hex hi
    omega
  refine ⟨k0 + 1, by omega, tenths_nonneg _ _ hpos.le, hk0, ?_, ?_⟩
  · intro j hj hlt
    by_cases hjk : j < k0 + 1
    · cases j with
      | zero => omega
      | succ i =>
        have := hmin i (by omega)
        omega
    · exact tenths_antitone r.Unit hpos.le (by omega)
  · intro fuel hf
    have hne : limit ≠ 0 := by omega
    have hng : ¬ limit > r.Unit := by omega
    have hb := tdiv_ten_bounds hpos.le hu2
    have hw : wrap64 (Int.tdiv r.Unit 10) = Int.tdiv r.Unit 10 :=
      wrap64_eq_self (by unfold IsInt64; unfold maxInt64 at hb; omega)
    have hloop := decreaseLoop_first limit k0 (Int.tdiv r.Unit 10) fuel hb.1 hb.2.2.1
      (by
        intro i hi
        have := hmin i hi
        rwa [Function.iterate_succ_apply] at this)
      (by rwa [Function.iterate_succ_apply] at hk0) (by omega)
    have hfn := tenths_nonneg (k0 + 1) r.Unit hpos.le
    rw [Function.iterate_succ_apply] at hk0 hfn ⊢
    have hfit : wrap64 (limit - (fun x : Int => Int.tdiv x 10)^[k0] (Int.tdiv r.Unit 10))
        = limit - (fun x : Int => Int.tdiv x 10)^[k0] (Int.tdiv r.Unit 10) :=
      wrap64_eq_self (by unfold IsInt64; unfold maxInt64 at hu2; omega)
    simp only [LimitChange.Decrease, if_neg hne, LimitChange.decreaseBody, if_neg hng,
      goDiv_of_ne _ (show (10 : Int) ≠ 0 by decide), hw, hloop, hfit]
    by_cases h : limit - (fun x : Int => Int.tdiv x 10)^[k0] (Int.tdiv r.Unit 10)
        < (fun x : Int => Int.tdiv x 10)^[k0] (Int.tdiv r.Unit 10)
    · rw [if_pos h, max_eq_right (by omega)]
    · rw [if_neg h, max_eq_left (by omega)]

/-- C18: for `Unit > 0` and `limit > 0`, `LimitChange.Decrease(limit)` returns
a value `d` with `0 < d ≤ limit`; `d < limit` whenever `limit > Unit`; and for
`limit ≤ Unit`, `d = limit` exactly when no positive candidate
`Unit/10, Unit/100, ...` is strictly below `limit`. -/
theorem C18_Decrease_bounds (r : RateLimiter) (rest : List StateArg) (limit : Int)
    (hu : IsInt64 r.Unit) (hl : IsInt64 limit) (hpos : 0 < r.Unit) (hl0 : 0 < limit) :
    ∃ (d : Int) (N : Nat),
      (∀ fuel : Nat, N ≤ fuel →
        LimitChange.Decrease fuel limit (.limiter r :: rest) = .done (d, none))
      ∧ 0 < d ∧ d ≤ limit
      ∧ (limit > r.Unit → d < limit)
      ∧ (limit ≤ r.Unit →
          (d = limit ↔ ¬ ∃ j : Nat, 1 ≤ j ∧ 0 < (fun x : Int => Int.tdiv x 10)^[j] r.Unit
            ∧ (fun x : Int => Int.tdiv x 10)^[j] r.Unit < limit)) := by
  by_cases hgt : limit > r.Unit
  · refine ⟨max (limit - r.Unit) r.Unit, 0, ?_, ?_, ?_, ?_, ?_⟩
    · intro fuel _
      show (if limit = 0 then _ else LimitChange.decreaseBody fuel limit r.Unit) = _
      rw [if_neg (by omega)]
      exact decrease_above_unit fuel limit r.Unit hgt
        (by unfold IsInt64 at *; omega)
    · exact lt_of_lt_of_le hpos (le_max_right _ _)
    · exact max_le (by omega) (by omega)
    · intro _
      exact max_lt (by omega) hgt
    · intro hle
      omega
  · obtain ⟨k, hk1, hf0, hflt, hlargest, hrun⟩ :=
      decrease_fraction r rest limit hu hpos hl0 (by omega)
    refine ⟨_, k, hrun, ?_, ?_, ?_, ?_⟩
    · exact lt_of_lt_of_le (by omega) (le_max_left _ _)
    · exact max_le (by omega) (by omega)
    · intro h
      exact absurd h hgt
    · intro _
      constructor
      · intro hd
        rintro ⟨j, hj1, hjpos, hjlt⟩
        have h1 := hlargest j hj1 hjlt
        have h2 : 0 < (fun x : Int => Int.tdiv x 10)^[k] r.Unit := by omega
        have h3 : max (limit - (fun x : Int => Int.tdiv x 10)^[k] r.Unit)
            ((fun x : Int => Int.tdiv x 10)^[k] r.Unit) < limit :=
          max_lt (by omega) hflt
        omega
      · intro hno
        have hz : (fun x : Int => Int.tdiv x 10)^[k] r.Unit = 0 := by
          by_contra hne
          exact hno ⟨k, hk1, by omega, hflt⟩
        rw [hz, Int.sub_zero]
        exact max_eq_left hl0.le

/-- C18 at `Unit = 1s`: `Decrease(1ns) = 1ns`, `Decrease(500ms) = 400ms`,
`Decrease(5s) = 4s`. -/
theorem C18_Decrease_bounds_witness :
    LimitChange.Decrease 10 1 [.limiter (testLimiter 1)] = .done (1, none)
    ∧ LimitChange.Decrease 10 500000000 [.limiter (testLimiter 1)] = .done (400000000, none)
    ∧ LimitChange.Decrease 10 5000000000 [.limiter (testLimiter 1)] = .done (4000000000, none)
    ∧ ∃ (d : Int) (N : Nat),
        (∀ fuel : Nat, N ≤ fuel →
          LimitChange.Decrease fuel 1 [.limiter (testLimiter 1)] = .done (d, none))
        ∧ 0 < d ∧ d ≤ 1 :=
  ⟨by decide, by decide, by decide, by
    obtain ⟨d, N, h1, h2, h3, _⟩ :=
      C18_Decrease_bounds (testLimiter 1) [] 1 (by decide) (by decide) (by decide)
        (by decide)
    exact ⟨d, N, h1, h2, h3⟩⟩

/-! ## Termination of the search loop of `LimitChange.Decrease` -/

/-- Go's division by ten moves an `int64` toward zero and never past it. -/
theorem tdiv_ten_toward_zero (u : Int) (hu : IsInt64 u) :
    IsInt64 (Int.tdiv u 10)
      ∧ (0 ≤ u → 0 ≤ Int.tdiv u 10 ∧ Int.tdiv u 10 ≤ u)
      ∧ (u ≤ 0 → u ≤ Int.tdiv u 10 ∧ Int.tdiv u 10 ≤ 0) := by
  unfold IsInt64 at *
  rcases Int.le_total 0 u with h | h
  · rw [tdiv_of_nonneg h (by decide)]
    omega
  · have : Int.tdiv u 10 = -((-u) / 10) := by
      have := Int.neg_tdiv (-u) 10
      rw [Int.neg_neg] at this
      rw [this, tdiv_of_nonneg (by omega) (by decide)]
    rw [this]
    omega

/-- With a negative limit at or below the candidate, the guard of the loop holds
at every evaluation, so no budget is enough. -/
theorem decreaseLoop_diverges (limit : Int) (hneg : limit < 0) :
    ∀ (fuel : Nat) (u : Int), IsInt64 u → limit ≤ u →
      LimitChange.decreaseLoop fuel limit u = none := by
  intro fuel
  induction fuel with
  | zero => intro u _ _; rfl
  | succ f ih =>
    intro u hu hle
    have hb := tdiv_ten_toward_zero u hu
    rw [LimitChange.decreaseLoop, if_pos hle, goDiv_of_ne _ (show (10 : Int) ≠ 0 by decide),
      wrap64_eq_self hb.1]
    refine ih _ hb.1 ?_
    rcases Int.le_total 0 u with h | h
    · have := (hb.2.1 h).1
      omega
    · have := (hb.2.2 h).1
      omega

theorem tenths_guard_stays (limit : Int) (hneg : limit < 0) :
    ∀ (j : Nat) (u : Int), IsInt64 u → limit ≤ u →
      limit ≤ (fun x : Int => Int.tdiv x 10)^[j] u := by
  intro j
  induction j with
  | zero => intro u _ h; simpa using h
  | succ j ih =>
    intro u hu hle
    have hb := tdiv_ten_toward_zero u hu
    rw [Function.iterate_succ_apply]
    refine ih _ hb.1 ?_
    rcases Int.le_total 0 u with h | h
    · have := (hb.2.1 h).1
      omega
    · have := (hb.2.2 h).1
      omega

/-- With a positive limit the loop stops from every candidate. -/
theorem decreaseLoop_terminates (limit : Int) (hl0 : 0 < limit) (u : Int) (hu : IsInt64 u) :
    ∃ (N : Nat) (v : Int), ∀ fuel : Nat, N ≤ fuel →
      LimitChange.decreaseLoop fuel limit u = some v := by
  by_cases hlt : u < limit
  · refine ⟨1, u, ?_⟩
    intro fuel hf
    obtain ⟨f, rfl⟩ := Nat.exists_eq_succ_of_ne_zero (by omega : fuel ≠ 0)
    rw [LimitChange.decreaseLoop, if_neg (by omega)]
  · have h0 : 0 ≤ u := by omega
    have hex : ∃ j, (fun x : Int => Int.tdiv x 10)^[j] u < limit := by
      obtain ⟨j, hj⟩ := tenths_reach_zero u.toNat u h0 le_rfl
      exact ⟨j, by omega⟩
    classical
    refine ⟨Nat.find hex + 1, (fun x : Int => Int.tdiv x 10)^[Nat.find hex] u, ?_⟩
    intro fuel hf
    exact decreaseLoop_first limit (Nat.find hex) u fuel h0 hu.2
      (by
        intro i hi
        have := Nat.find_min hex hi
        omega)
      (Nat.find_spec hex) (by omega)

/-- C19: with a limiter as context, the search loop of `LimitChange.Decrease`
stops for every positive limit (from every candidate, and so the call returns
for every large enough budget); it is not entered when `limit = 0` or
`limit > Unit` (the call returns with a budget of zero guard evaluations); and
for `limit < 0` with `limit ≤ Unit` the guard `limit ≤ newUnit` holds at every
candidate, so the call does not return within any budget. -/
theorem C19_Decrease_loop (r : RateLimiter) (rest : List StateArg) (limit : Int)
    (hu : IsInt64 r.Unit) :
    (0 < limit →
        (∀ u : Int, IsInt64 u → ∃ (N : Nat) (v : Int), ∀ fuel : Nat, N ≤ fuel →
            LimitChange.decreaseLoop fuel limit u = some v)
        ∧ ∃ (N : Nat) (d : Int), ∀ fuel : Nat, N ≤ fuel →
            LimitChange.Decrease fuel limit (.limiter r :: rest) = .done (d, none))
    ∧ (limit = 0 ∨ limit > r.Unit →
        ∃ d, LimitChange.Decrease 0 limit (.limiter r :: rest) = .done (d, none))
    ∧ (limit < 0 → limit ≤ r.Unit →
        (∀ j : Nat, limit ≤ (fun x : Int => Int.tdiv x 10)^[j] (Int.tdiv r.Unit 10))
        ∧ (∀ fuel : Nat, LimitChange.decreaseLoop fuel limit (Int.tdiv r.Unit 10) = none)
        ∧ ∀ fuel : Nat,
            LimitChange.Decrease fuel limit (.limiter r :: rest) = .fuelOut) := by
  have hb := tdiv_ten_toward_zero r.Unit hu
  have hw : wrap64 (Int.tdiv r.Unit 10) = Int.tdiv r.Unit 10 := wrap64_eq_self hb.1
  refine ⟨?_, ?_, ?_⟩
  · intro hl0
    refine ⟨fun u hu2 => decreaseLoop_terminates limit hl0 u hu2, ?_⟩
    have hne : limit ≠ 0 := by omega
    by_cases hgt : limit > r.Unit
    · refine ⟨0, if wrap64 (limit - r.Unit) < r.Unit then r.Unit
        else wrap64 (limit - r.Unit), ?_⟩
      intro fuel _
      simp only [LimitChange.Decrease, if_neg hne, LimitChange.decreaseBody, if_pos hgt]
    · obtain ⟨N, v, hN⟩ := decreaseLoop_terminates limit hl0 (Int.tdiv r.Unit 10) hb.1
      refine ⟨N, if wrap64 (limit - v) < v then v else wrap64 (limit - v), ?_⟩
      intro fuel hf
      simp only [LimitChange.Decrease, if_neg hne, LimitChange.decreaseBody, if_neg hgt,
        goDiv_of_ne _ (show (10 : Int) ≠ 0 by decide), hw, hN fuel hf]
  · rintro (hz | hgt)
    · subst hz
      exact ⟨0, rfl⟩
    · by_cases hne : limit = 0
      · subst hne
        exact ⟨0, rfl⟩
      · refine ⟨if wrap64 (limit - r.Unit) < r.Unit then r.Unit
          else wrap64 (limit - r.Unit), ?_⟩
        simp only [LimitChange.Decrease, if_neg hne, LimitChange.decreaseBody, if_pos hgt]
  · intro hneg hle
    have hstart : limit ≤ Int.tdiv r.Unit 10 := by
      rcases Int.le_total 0 r.Unit with h | h
      · have := (hb.2.1 h).1
        omega
      · have := (hb.2.2 h).1
        omega
    refine ⟨fun j => tenths_guard_stays limit hneg j _ hb.1 hstart,
      fun fuel => decreaseLoop_diverges limit hneg fuel _ hb.1 hstart, ?_⟩
    intro fuel
    have hne : limit ≠ 0 := by omega
    have hng : ¬ limit > r.Unit := by omega
    simp only [LimitChange.Decrease, if_neg hne, LimitChange.decreaseBody, if_neg hng,
      goDiv_of_ne _ (show (10 : Int) ≠ 0 by decide), hw,
      decreaseLoop_diverges limit hneg fuel _ hb.1 hstart]

/-- C19 at `Unit = 1s`: `Decrease(-1ns)` exhausts a budget of 100 guard
evaluations; `Decrease(0)` and `Decrease(5s)` need none; `Decrease(500ms)`
returns for every large enough budget. -/
theorem C19_Decrease_loop_witness :
    LimitChange.Decrease 100 (-1) [.limiter (testLimiter 0)] = .fuelOut
    ∧ LimitChange.Decrease 0 0 [.limiter (testLimiter 0)] = .done (0, none)
    ∧ LimitChange.Decrease 0 5000000000 [.limiter (testLimiter 0)]
        = .done (4000000000, none)
    ∧ ∃ (N : Nat) (d : Int), ∀ fuel : Nat, N ≤ fuel →
        LimitChange.Decrease fuel 500000000 [.limiter (testLimiter 0)] = .done (d, none) :=
  ⟨((C19_Decrease_loop (testLimiter 0) [] (-1) (by decide)).2.2 (by decide) (by decide)).2.2
      100,
    by decide, by decide,
    ((C19_Decrease_loop (testLimiter 0) [] 500000000 (by decide)).1 (by decide)).2⟩

/-! ## Division by zero in `updateTokens` -/

theorem updateTokens_panic (r : RateLimiter) (now : Int) (hw : r.WaitLimit = 0) :
    r.updateTokens now = .panic := by
  simp only [RateLimiter.updateTokens, goDiv, hw, if_true]

theorem updateTokens_panic_iff (r : RateLimiter) (now : Int) :
    r.updateTokens now = .panic ↔ r.WaitLimit = 0 := by
  constructor
  · intro h
    by_contra hw
    rw [updateTokens_done r now hw] at h
    exact Run.noConfusion h
  · exact updateTokens_panic r now

theorem acquirePass_panic_iff (r : RateLimiter) (cost t1 t2 : Int) :
    r.acquirePass cost t1 t2 = .panic ↔ r.WaitLimit = 0 := by
  constructor
  · intro h
    by_contra hw
    by_cases hchk : r.Tokens ≥ min (max cost 1) r.MaxTokens
    · obtain ⟨r2, _, hp, _⟩ := acquirePass_success r cost t1 t2 hw hchk
      rw [hp] at h
      split_ifs at h
    · obtain ⟨r2, _, hp, _⟩ := acquirePass_failure r cost t1 t2 hw hchk
      rw [hp] at h
      exact Pass.noConfusion h
  · intro hw
    have h1 := updateTokens_panic { r with lastLocked := t1 } t2 hw
    have h2 := updateTokens_panic r t1 hw
    unfold RateLimiter.acquirePass
    split_ifs
    · rw [h1]
    · rw [h2]

theorem acquireWithCost_no_panic (cost : Int) (clock : Nat → Int) :
    ∀ (fuel : Nat) (r : RateLimiter) (i : Nat), r.WaitLimit ≠ 0 →
      RateLimiter.AcquireWithCost fuel r cost clock i ≠ .panic := by
  intro fuel
  induction fuel with
  | zero =>
    intro r i _ h
    exact Acquire.noConfusion h
  | succ f ih =>
    intro r i hw h
    rw [RateLimiter.AcquireWithCost] at h
    by_cases hchk : r.Tokens ≥ min (max cost 1) r.MaxTokens
    · obtain ⟨r2, _, hp, _⟩ :=
        acquirePass_success r cost (clock i) (clock (i + 1)) hw hchk
      rw [hp] at h
      split_ifs at h
    · obtain ⟨r2, _, hp, _, hwl, _⟩ :=
        acquirePass_failure r cost (clock i) (clock (i + 1)) hw hchk
      rw [hp] at h
      exact ih r2 (i + 2) (by rw [hwl]; exact hw) h

/-- C20: `updateTokens` divides by zero exactly when `WaitLimit = 0`, and so does
every bookkeeping pass of `AcquireWithCost`; with `WaitLimit ≠ 0` the refill
returns and no pass of `AcquireWithCost` or `Lock` panics, with `WaitLimit = 0`
the first pass of either does.  `WaitLimit = 0` is reached by `NewRateLimiter`
with `wait = 0` and by `SetLimit(0)`, and the built-in `Decrease` keeps it. -/
theorem C20_updateTokens_division (r : RateLimiter) :
    (∀ now : Int, r.updateTokens now = .panic ↔ r.WaitLimit = 0)
    ∧ (r.WaitLimit ≠ 0 → ∀ now : Int, ∃ r2, r.updateTokens now = .done r2)
    ∧ (∀ cost t1 t2 : Int, r.acquirePass cost t1 t2 = .panic ↔ r.WaitLimit = 0)
    ∧ (r.WaitLimit ≠ 0 → ∀ (fuel : Nat) (cost : Int) (clock : Nat → Int) (i : Nat),
        r.AcquireWithCost fuel cost clock i ≠ .panic ∧ r.Lock fuel clock i ≠ .panic)
    ∧ (r.WaitLimit = 0 → ∀ (fuel : Nat) (cost : Int) (clock : Nat → Int) (i : Nat),
        r.AcquireWithCost (fuel + 1) cost clock i = .panic
          ∧ r.Lock (fuel + 1) clock i = .panic)
    ∧ (∀ now tokens maxTokens unit : Int,
        (NewRateLimiter now tokens maxTokens 0 unit).WaitLimit = 0)
    ∧ (r.SetLimit 0).WaitLimit = 0
    ∧ (r.WaitLimit = 0 → ∀ fuel : Nat, r.Decrease fuel = .done r) := by
  refine ⟨fun now => updateTokens_panic_iff r now, ?_,
    fun cost t1 t2 => acquirePass_panic_iff r cost t1 t2, ?_, ?_, fun _ _ _ _ => rfl, rfl, ?_⟩
  · intro hw now
    exact ⟨_, updateTokens_done r now hw⟩
  · intro hw fuel cost clock i
    exact ⟨acquireWithCost_no_panic cost clock fuel r i hw,
      acquireWithCost_no_panic 1 clock fuel r i hw⟩
  · intro hw fuel cost clock i
    have h : ∀ c : Int, r.AcquireWithCost (fuel + 1) c clock i = .panic := by
      intro c
      rw [RateLimiter.AcquireWithCost,
        (acquirePass_panic_iff r c (clock i) (clock (i + 1))).mpr hw]
    exact ⟨h cost, h 1⟩
  · intro hw fuel
    simp only [RateLimiter.Decrease, RateLimiter.DecreaseLimit, LimitChange.changer,
      LimitChange.Decrease, hw, if_true]
    cases r
    simp_all

/-- C20 on the limiter of `TestLocking` after `SetLimit(0)`: the refill and the
first pass of `Lock` divide by zero; before it, both return. -/
theorem C20_updateTokens_division_witness :
    ((NewRateLimiter 0 1 1 1000000000 1000000000).SetLimit 0).updateTokens 5 = .panic
    ∧ ((NewRateLimiter 0 1 1 1000000000 1000000000).SetLimit 0).Lock 1 slowClock 0 = .panic
    ∧ (NewRateLimiter 0 1 1 1000000000 1000000000).updateTokens 5
        = .done (NewRateLimiter 0 1 1 1000000000 1000000000)
    ∧ (NewRateLimiter 0 1 1 1000000000 1000000000).Lock 1 slowClock 0
        = .locked { NewRateLimiter 0 0 1 1000000000 1000000000 with locked := true } 2 :=
  ⟨((C20_updateTokens_division
      ((NewRateLimiter 0 1 1 1000000000 1000000000).SetLimit 0)).1 5).mpr (by decide),
   ((C20_updateTokens_division
      ((NewRateLimiter 0 1 1 1000000000 1000000000).SetLimit 0)).2.2.2.2.1 (by decide)
      0 1 slowClock 0).2,
   by decide, by decide⟩

end Ratelimit
